import Mathlib

/-!
Verification of the ViceBank usage-to-billing settlement engine
(`src/backend/server.js`) against its natural-language specification.

Modelling conventions for the shallow embedding:
* JS integer-valued numbers are modelled as `Int` (cents, seconds, minutes,
  millisecond timestamps); dollar-per-minute rates are modelled as exact
  rationals `ℚ` (the spec-relevant rate values 0.05 and 0.5 produce the same
  cents-per-minute under binary floating point and under exact rationals).
* JS `Map`s and plain objects used as dictionaries are modelled as
  insertion-ordered association lists (`List (key × value)`); `Map.set` /
  property assignment keeps the position of an existing key and appends a
  fresh key, exactly like the JS iteration order the code relies on.
* `Date` arithmetic is modelled over epoch milliseconds (`Int`).  The local
  time methods (`setHours`, `getDay`, `setDate`) are modelled with the host
  timezone taken to be UTC, the reference deployment of the server; the
  `tzOffsetMinutes` request parameter is the only timezone input.
  `Math.floor` on a quotient is `Int.fdiv`; `%` on the guarded non-negative
  operands agrees with `Int.emod`, which is used throughout.
* The Stripe client is modelled as an oracle `ChargeReq → Except String PI`;
  a `throw` in JS is an `Except.error` value that the caller propagates.
-/

namespace ViceBank

/-! ### Association lists (JS `Map` / object-as-dictionary) -/

/-- First-match lookup, the JS `map.get(k)` / `obj[k]`. -/
def lookupA {α : Type} : List (String × α) → String → Option α
  | [], _ => none
  | (k, v) :: t, key => if k = key then some v else lookupA t key

/-- `map.set(k, v)` / `obj[k] = v`: replace in place, else append. -/
def setA {α : Type} : List (String × α) → String → α → List (String × α)
  | [], key, v => [(key, v)]
  | (k, w) :: t, key, v =>
    if k = key then (k, v) :: t else (k, w) :: setA t key v

/-- `obj[k] = (obj[k] || 0) + v` for an integer-valued accumulator object. -/
def bumpAssoc : List (String × Int) → String → Int → List (String × Int)
  | [], key, v => [(key, v)]
  | (k, w) :: t, key, v =>
    if k = key then (k, w + v) :: t else (k, w) :: bumpAssoc t key v

theorem lookupA_setA_self {α : Type} (l : List (String × α)) (k : String) (v : α) :
    lookupA (setA l k v) k = some v := by
  induction l with
  | nil => simp [setA, lookupA]
  | cons h t ih =>
    obtain ⟨k', w⟩ := h
    by_cases hk : k' = k <;> simp [setA, lookupA, hk, ih]

theorem lookupA_setA_other {α : Type} (l : List (String × α)) (k k' : String) (v : α)
    (h : k' ≠ k) : lookupA (setA l k v) k' = lookupA l k' := by
  have hks : ¬ k = k' := fun hh => h hh.symm
  induction l with
  | nil => simp [setA, lookupA, hks]
  | cons hd t ih =>
    obtain ⟨k₀, w⟩ := hd
    by_cases h0 : k₀ = k
    · subst h0
      simp [setA, lookupA, hks]
    · simp [setA, lookupA, h0]
      by_cases h1 : k₀ = k' <;> simp [h1, ih]

theorem lookupA_bumpAssoc_other (l : List (String × Int)) (k k' : String) (v : Int)
    (h : k' ≠ k) : lookupA (bumpAssoc l k v) k' = lookupA l k' := by
  have hks : ¬ k = k' := fun hh => h hh.symm
  induction l with
  | nil => simp [bumpAssoc, lookupA, hks]
  | cons hd t ih =>
    obtain ⟨k₀, w⟩ := hd
    by_cases h0 : k₀ = k
    · subst h0
      simp [bumpAssoc, lookupA, hks]
    · simp [bumpAssoc, lookupA, h0]
      by_cases h1 : k₀ = k' <;> simp [h1, ih]

/-! ### Decimal rendering of numbers (JS template-string interpolation) -/

/-- The decimal digit characters used by JS number-to-string conversion. -/
def digitChar : Nat → Char
  | 0 => '0' | 1 => '1' | 2 => '2' | 3 => '3' | 4 => '4'
  | 5 => '5' | 6 => '6' | 7 => '7' | 8 => '8' | 9 => '9'
  | _ => '?'

def digitVal (c : Char) : Nat := c.toNat - 48

/-- Most-significant-first decimal digit characters of `n` (empty for 0);
the fuel argument makes the recursion structural. -/
def natToDecimalAux : Nat → Nat → List Char
  | 0, _ => []
  | fuel + 1, n =>
    if n = 0 then [] else natToDecimalAux fuel (n / 10) ++ [digitChar (n % 10)]

/-- JS decimal rendering of a non-negative integer (`String(n)`, `${n}`). -/
def natToDecimal (n : Nat) : String :=
  if n = 0 then "0" else ⟨natToDecimalAux n n⟩

theorem natToDecimalAux_eq (fuel n : Nat) (h : n ≤ fuel) :
    natToDecimalAux fuel n = ((Nat.digits 10 n).map digitChar).reverse := by
  induction fuel generalizing n with
  | zero =>
    interval_cases n
    simp [natToDecimalAux]
  | succ f ih =>
    by_cases hn : n = 0
    · subst hn; simp [natToDecimalAux]
    · have hdiv : n / 10 ≤ f := by omega
      simp only [natToDecimalAux, hn, if_false]
      rw [ih (n / 10) hdiv,
        Nat.digits_def' (by norm_num : (1 : ℕ) < 10) (Nat.pos_of_ne_zero hn)]
      simp

theorem natToDecimal_eq_digits (n : Nat) :
    natToDecimal n
      = if n = 0 then "0" else ⟨((Nat.digits 10 n).map digitChar).reverse⟩ := by
  by_cases hn : n = 0
  · simp [natToDecimal, hn]
  · simp [natToDecimal, hn, natToDecimalAux_eq n n le_rfl]

/-- JS decimal rendering of an integer-valued number. -/
def intToDecimal (i : Int) : String :=
  if i < 0 then "-" ++ natToDecimal (-i).toNat else natToDecimal i.toNat

/-- Decodes a digit string; a left inverse of `natToDecimal`. -/
def decodeNat (l : List Char) : Nat :=
  Nat.ofDigits 10 (l.reverse.map digitVal)

def decodeInt : List Char → Int
  | [] => 0
  | c :: rest =>
    if c = '-' then -(decodeNat rest : Int) else (decodeNat (c :: rest) : Int)

theorem data_append (a b : String) : (a ++ b).data = a.data ++ b.data := by
  cases a; cases b; rfl

theorem digitVal_digitChar {d : Nat} (h : d < 10) : digitVal (digitChar d) = d := by
  interval_cases d <;> rfl

theorem decodeNat_natToDecimal (n : Nat) : decodeNat (natToDecimal n).data = n := by
  rw [natToDecimal_eq_digits]
  by_cases h0 : n = 0
  · subst h0; rfl
  · simp only [h0, if_false, decodeNat, List.reverse_reverse,
      List.map_map]
    have hmap : ((Nat.digits 10 n).map (digitVal ∘ digitChar))
        = (Nat.digits 10 n).map id := by
      apply List.map_congr_left
      intro d hd
      exact digitVal_digitChar (Nat.digits_lt_base (by norm_num) hd)
    rw [hmap, List.map_id, Nat.ofDigits_digits]

theorem mem_natToDecimal_isDigit (n : Nat) :
    ∀ c ∈ (natToDecimal n).data, c ≠ '-' := by
  rw [natToDecimal_eq_digits]
  by_cases h0 : n = 0
  · subst h0; intro c hc; simp at hc; subst hc; decide
  · intro c hc
    simp only [h0, if_false, List.mem_reverse, List.mem_map] at hc
    obtain ⟨d, hd, rfl⟩ := hc
    have hlt : d < 10 := Nat.digits_lt_base (by norm_num) hd
    interval_cases d <;> decide

theorem natToDecimal_ne_nil (n : Nat) : (natToDecimal n).data ≠ [] := by
  rw [natToDecimal_eq_digits]
  by_cases h0 : n = 0
  · subst h0; simp
  · simp only [h0, if_false]
    intro h
    have := congrArg List.length h
    simp at this
    exact h0 (Nat.digits_eq_nil_iff_eq_zero.mp this)

theorem decodeInt_intToDecimal (i : Int) : decodeInt (intToDecimal i).data = i := by
  by_cases hneg : i < 0
  · have hdata : (intToDecimal i).data = '-' :: (natToDecimal (-i).toNat).data := by
      unfold intToDecimal
      rw [if_pos hneg, data_append]
      rfl
    rw [hdata]
    have hstep : decodeInt ('-' :: (natToDecimal (-i).toNat).data)
        = -(decodeNat (natToDecimal (-i).toNat).data : Int) := by
      simp [decodeInt]
    rw [hstep, decodeNat_natToDecimal]
    omega
  · have hdata : (intToDecimal i).data = (natToDecimal i.toNat).data := by
      unfold intToDecimal
      rw [if_neg hneg]
    rw [hdata]
    have hne : ∀ c ∈ (natToDecimal i.toNat).data, c ≠ '-' :=
      mem_natToDecimal_isDigit _
    have hdec : decodeInt (natToDecimal i.toNat).data
        = (decodeNat (natToDecimal i.toNat).data : Int) := by
      cases hd : (natToDecimal i.toNat).data with
      | nil => exact absurd hd (natToDecimal_ne_nil _)
      | cons c rest =>
        have hcne : c ≠ '-' := hne c (by rw [hd]; exact List.mem_cons_self c rest)
        simp [decodeInt, hcne]
    rw [hdec, decodeNat_natToDecimal]
    omega

theorem intToDecimal_injective : Function.Injective intToDecimal := by
  intro a b hab
  have := decodeInt_intToDecimal a
  rw [hab, decodeInt_intToDecimal b] at this
  omega

/-! ### Calendar arithmetic (the `Date` model)

`civilFromDays` / `daysFromCivil` are the exact integer Gregorian
conversions that ECMAScript `Date` specifies (proleptic Gregorian over epoch
days); `dayStrOfMs` is `toISOString().slice(0, 10)` and `parseDayStr` is
`new Date(s + "T00:00:00Z").getTime()` on a well-formed `YYYY-MM-DD` string
(an unparseable string yields an Invalid Date in JS and `none` here). -/

def civilFromDays (z : Int) : Int × Nat × Nat :=
  let z' := z + 719468
  let era := Int.fdiv z' 146097
  let doe : Nat := (z' - era * 146097).toNat
  let yoe : Nat := (doe - doe / 1461 + doe / 36524 - doe / 146096) / 365
  let y : Int := (yoe : Int) + era * 400
  let doy : Nat := doe - (365 * yoe + yoe / 4 - yoe / 100)
  let mp : Nat := (5 * doy + 2) / 153
  let d : Nat := doy - (153 * mp + 2) / 5 + 1
  let m : Nat := if mp < 10 then mp + 3 else mp - 9
  (if m ≤ 2 then y + 1 else y, m, d)

def daysFromCivil (y : Int) (m d : Nat) : Int :=
  let y' : Int := if m ≤ 2 then y - 1 else y
  let era := Int.fdiv y' 400
  let yoe : Nat := (y' - era * 400).toNat
  let mp : Nat := if 2 < m then m - 3 else m + 9
  let doy : Nat := (153 * mp + 2) / 5 + d - 1
  let doe : Nat := yoe * 365 + yoe / 4 - yoe / 100 + doy
  era * 146097 + (doe : Int) - 719468

def isLeapYear (y : Int) : Bool :=
  (y % 4 = 0 && y % 100 ≠ 0) || y % 400 = 0

def daysInMonth (y : Int) (m : Nat) : Nat :=
  if m = 2 then (if isLeapYear y then 29 else 28)
  else if m = 4 ∨ m = 6 ∨ m = 9 ∨ m = 11 then 30
  else 31

def pad2 (n : Nat) : String :=
  if n < 10 then "0" ++ natToDecimal n else natToDecimal n

def pad4 (n : Int) : String :=
  let s := natToDecimal n.toNat
  ⟨List.replicate (4 - s.data.length) '0' ++ s.data⟩

/-- `YYYY-MM-DD` for an epoch day number (UTC), as `toISOString` formats it. -/
def dayStrOfDays (d : Int) : String :=
  let c := civilFromDays d
  pad4 c.1 ++ "-" ++ pad2 c.2.1 ++ "-" ++ pad2 c.2.2

/-- `new Date(t).toISOString().slice(0, 10)` — the UTC calendar day of `t`. -/
def dayStrOfMs (t : Int) : String := dayStrOfDays (Int.fdiv t 86400000)

def digitVal? (c : Char) : Option Nat :=
  if '0' ≤ c ∧ c ≤ '9' then some (c.toNat - 48) else none

/-- Epoch milliseconds of UTC midnight of a well-formed `YYYY-MM-DD` string
(JS `new Date(s + "T00:00:00Z")`); `none` models an Invalid Date. -/
def parseDayStr (s : String) : Option Int :=
  match s.data with
  | [y1, y2, y3, y4, h1, mo1, mo2, h2, d1, d2] =>
    if h1 = '-' ∧ h2 = '-' then do
      let a ← digitVal? y1
      let b ← digitVal? y2
      let c ← digitVal? y3
      let d ← digitVal? y4
      let e ← digitVal? mo1
      let f ← digitVal? mo2
      let g ← digitVal? d1
      let h ← digitVal? d2
      let y : Int := (1000 * a + 100 * b + 10 * c + d : Nat)
      let m := 10 * e + f
      let dd := 10 * g + h
      if 1 ≤ m ∧ m ≤ 12 ∧ 1 ≤ dd ∧ dd ≤ daysInMonth y m then
        pure (86400000 * daysFromCivil y m dd)
      else none
    else none
  | _ => none

/-! ### Domain categorizer (`PORN_SEEDS`, `GAMBLING_SEEDS`, `categorizeDomain`)

The regex `(?:^|\.)(seed1|seed2|…)\.[a-z0-9.-]+$` (flag `i`) accepts a
hostname iff some seed occurs either at the start or immediately after a
dot, followed by a literal dot and a non-empty run of suffix characters
reaching the end.  `seedHere` tests one candidate position, `rxAfterDot`
scans the positions after each dot. -/

def PORN_SEEDS : List String :=
  ["porn", "xvideos", "xnxx", "xhamster", "redtube", "pornhub", "brazzers",
   "onlyfans"]

def GAMBLING_SEEDS : List String :=
  ["stake", "rollbit", "bet365", "pokerstars", "draftkings", "fanduel",
   "1xbet", "betway"]

/-- The suffix character class `[a-z0-9.-]` (with flag `i` also `A-Z`). -/
def suffixChar (c : Char) : Bool :=
  ('a' ≤ c && c ≤ 'z') || ('A' ≤ c && c ≤ 'Z') || ('0' ≤ c && c ≤ '9') ||
    c = '.' || c = '-'

/-- Does `h` begin with `seed ++ "." ++ suffix` where the non-empty suffix of
class characters reaches the end of `h`? -/
def seedHere : List Char → List Char → Bool
  | [], [] => false
  | [], c :: rest => c = '.' && (!rest.isEmpty && rest.all suffixChar)
  | _ :: _, [] => false
  | s :: ss, c :: cs => s = c && seedHere ss cs

/-- Tries `seedHere` at every position that immediately follows a `'.'`. -/
def rxAfterDot (seed : List Char) : List Char → Bool
  | [] => false
  | c :: rest => (c = '.' && seedHere seed rest) || rxAfterDot seed rest

/-- `makeDomainRegex(seeds).test(h)`. -/
def regexTest (seeds : List String) (h : List Char) : Bool :=
  seeds.any (fun seed => seedHere seed.data h || rxAfterDot seed.data h)

def CATEGORY_RULES : List (String × List String) :=
  [("porn", PORN_SEEDS), ("gambling", GAMBLING_SEEDS)]

/-- ASCII lower-casing, the relevant fragment of JS `toLowerCase()`. -/
def jsToLower (c : Char) : Char :=
  if 'A' ≤ c ∧ c ≤ 'Z' then Char.ofNat (c.toNat + 32) else c

/-- `host.toLowerCase().replace(/^www\./, "")`. -/
def normalizeHost (host : String) : List Char :=
  match host.data.map jsToLower with
  | 'w' :: 'w' :: 'w' :: '.' :: rest => rest
  | l => l

/-- `categorizeDomain(host)`: first category (in declaration order) whose
regex accepts the normalized hostname; `null` otherwise. -/
def categorizeDomain (host : String) : Option String :=
  if host = "" then none
  else
    let h := normalizeHost host
    (CATEGORY_RULES.find? (fun r => regexTest r.2 h)).map (fun r => r.1)

/-- Spec-side characterization: some seed of the list occurs as a whole
label, i.e. the hostname equals `seed.suffix` or ends with `.seed.suffix`
for a non-empty suffix of class characters. -/
def SeedBoundaryMatch (seed : String) (h : List Char) : Prop :=
  ∃ suf : List Char, suf ≠ [] ∧ suf.all suffixChar = true ∧
    (h = seed.data ++ '.' :: suf ∨
      ∃ pre : List Char, h = pre ++ '.' :: (seed.data ++ '.' :: suf))

def CategoryMatch (seeds : List String) (h : List Char) : Prop :=
  ∃ seed ∈ seeds, SeedBoundaryMatch seed h

/-! ### Usage counter store (`counters`, `ensureCounterBucket`, `addUsage`) -/

structure CatEntry where
  minutes : Int
  seconds : Int
deriving DecidableEq, Repr

structure DomEntry where
  seconds : Int
  category : String
deriving DecidableEq, Repr

structure Bucket where
  updatedAt : Int
  byCategory : List (String × CatEntry)
  byDomain : List (String × DomEntry)
deriving DecidableEq, Repr

/-- `dayKey(ts)`: the UTC calendar day of the timestamp. -/
def dayKey (ts : Int) : String := dayStrOfMs ts

def keyUserDay (userId : String) (ts : Int) : String :=
  userId ++ "::" ++ dayKey ts

def initBucket (ts : Int) : Bucket :=
  ⟨ts, [("porn", ⟨0, 0⟩), ("gambling", ⟨0, 0⟩)], []⟩

/-- `ensureCounterBucket(userId, ts)`: get-or-create; returns the updated
store and the bucket for `(userId, day-of ts)`. -/
def ensureCounterBucket (counters : List (String × Bucket)) (userId : String)
    (ts : Int) : List (String × Bucket) × Bucket :=
  let k := keyUserDay userId ts
  match lookupA counters k with
  | some b => (counters, b)
  | none => (setA counters k (initBucket ts), initBucket ts)

/-- `addUsage({userId, domain, category, seconds, ts})`.  The JS guard is the
falsy test `!userId || !domain || !category || !seconds`: empty strings and
`seconds === 0` are rejected, a negative `seconds` is not. -/
def addUsage (counters : List (String × Bucket)) (userId domain category : String)
    (seconds ts : Int) : List (String × Bucket) :=
  if userId = "" ∨ domain = "" ∨ category = "" ∨ seconds = 0 then counters
  else
    let k := keyUserDay userId ts
    let er := ensureCounterBucket counters userId ts
    let b0 := er.2
    let dEntry := (lookupA b0.byDomain domain).getD ⟨0, category⟩
    let cEntry := (lookupA b0.byCategory category).getD ⟨0, 0⟩
    let s' := cEntry.seconds + seconds
    let cEntry' : CatEntry :=
      if 60 ≤ s' then ⟨cEntry.minutes + Int.fdiv s' 60, s' % 60⟩
      else ⟨cEntry.minutes, s'⟩
    let b' : Bucket :=
      ⟨ts, setA b0.byCategory category cEntry',
        setA b0.byDomain domain ⟨dEntry.seconds + seconds, dEntry.category⟩⟩
    setA er.1 k b'

/-! ### Consent resolver (`getConsentSnapshot`) -/

/-- The `grace` field of a stored consent: a legacy scalar, a per-category
object, or absent. -/
inductive GraceVal
  | num (n : Int)
  | obj (m : List (String × Int))
  | undef
deriving DecidableEq, Repr

structure ConsentRaw where
  grace : GraceVal
  rates : Option (List (String × Rat))
  categoriesOn : Option (List (String × Bool))
deriving DecidableEq, Repr

structure ConsentSnapshot where
  grace : List (String × Int)
  rates : List (String × Rat)
  categoriesOn : List (String × Bool)
deriving DecidableEq, Repr

def defaultGrace : List (String × Int) := [("porn", 1), ("gambling", 0)]

def defaultRates : List (String × Rat) := [("porn", 0.05), ("gambling", 0.5)]

def defaultCategoriesOn : List (String × Bool) :=
  [("porn", true), ("gambling", true)]

/-- `getConsentSnapshot(userId)`: a legacy numeric grace is broadcast to both
categories; each field independently falls back to its default. -/
def getConsentSnapshot (consents : List (String × ConsentRaw)) (userId : String) :
    ConsentSnapshot :=
  let snap := lookupA consents userId
  let grace := match snap with
    | none => defaultGrace
    | some s =>
      match s.grace with
      | GraceVal.num n => [("porn", n), ("gambling", n)]
      | GraceVal.obj m => m
      | GraceVal.undef => defaultGrace
  let rates := match snap with
    | none => defaultRates
    | some s => s.rates.getD defaultRates
  let categoriesOn := match snap with
    | none => defaultCategoriesOn
    | some s => s.categoriesOn.getD defaultCategoriesOn
  ⟨grace, rates, categoriesOn⟩

/-! ### Week-boundary calculator (`getWeekBounds`, `isDayInRange`) -/

structure WeekBounds where
  weekStartUTC : Int
  weekEndUTC : Int
  weekStartStr : String
  weekEndStr : String
deriving DecidableEq, Repr

/-- Truncation to the start of the (host-UTC) calendar day,
`d.setHours(0,0,0,0)` on an epoch-millisecond value. -/
def truncDayMs (t : Int) : Int := 86400000 * Int.fdiv t 86400000

/-- Day of week of an instant, `d.getDay()` with a UTC host:
0 = Sunday … 6 = Saturday (1970-01-01 was a Thursday). -/
def dowOfMs (t : Int) : Int := (Int.fdiv t 86400000 + 4) % 7

/-- The body of `getWeekBounds` once the reference instant `endDate` (epoch
ms) is fixed: anchor to local midnight, roll forward to Sunday (0 days if
already Sunday), Monday six days earlier, local end-of-day 23:59:59.999,
shift both boundaries back to UTC, format as UTC `YYYY-MM-DD`. -/
def getWeekBoundsCore (endDate tz : Int) : WeekBounds :=
  let toLocalMidnightUTC : Int → Int := fun t =>
    truncDayMs (t + tz * 60000) - tz * 60000
  let endUTC := toLocalMidnightUTC endDate
  let locMs := endUTC + tz * 60000
  let dow := dowOfMs locMs
  let daysToSunday := (7 - dow) % 7
  let weekEndLocal := locMs + daysToSunday * 86400000
  let weekStartLocal := truncDayMs (weekEndLocal - 6 * 86400000)
  let weekEndLocalEOD := truncDayMs weekEndLocal + 86399999
  let weekStartUTC := weekStartLocal - tz * 60000
  let weekEndUTC := weekEndLocalEOD - tz * 60000
  ⟨weekStartUTC, weekEndUTC, dayStrOfMs weekStartUTC, dayStrOfMs weekEndUTC⟩

/-- `getWeekBounds({weekEndStr?, tzOffsetMinutes})`: an explicit week-end
date string is parsed as UTC midnight of that date; otherwise the current
instant is used.  An unparseable string poisons the JS computation with an
Invalid Date, modelled as `none`. -/
def getWeekBounds (weekEndStr : Option String) (now tz : Int) : Option WeekBounds :=
  match weekEndStr with
  | some s => (parseDayStr s).map (fun m => getWeekBoundsCore m tz)
  | none => some (getWeekBoundsCore now tz)

/-- `isDayInRange(dayStr, startUTC, endUTC, tzOffsetMinutes)`: the day's
local midnight, converted to UTC, tested against inclusive bounds.
Comparisons against an Invalid Date are false in JS. -/
def isDayInRange (dayStr : String) (startUTC endUTC tz : Int) : Bool :=
  match parseDayStr dayStr with
  | none => false
  | some m =>
    let asLocalMidnightUTC := m - tz * 60000
    decide (startUTC ≤ asLocalMidnightUTC ∧ asLocalMidnightUTC ≤ endUTC)

/-! ### Weekly aggregator (`collectWeeklyBillableMinutes`) -/

def STRIPE_MIN_CENTS : Int := 50

def CATEGORY_FLOORS : List (String × Rat) := [("porn", 0.05), ("gambling", 0.5)]

/-- Splits a store key around the LAST occurrence of `"::"`
(`key.lastIndexOf("::")`); `none` when the separator does not occur. -/
def splitLastColons : List Char → Option (List Char × List Char)
  | [] => none
  | c :: rest =>
    match splitLastColons rest with
    | some (p, s) => some (c :: p, s)
    | none =>
      if c = ':' then
        match rest with
        | ':' :: tail => some ([], tail)
        | _ => none
      else none

/-- `parseUserIdAndDay(key)`; `none` models the `{userId: null, day: null}`
result that the callers skip. -/
def parseUserIdAndDay (key : String) : Option (String × String) :=
  (splitLastColons key.data).map (fun p => (⟨p.1⟩, ⟨p.2⟩))

structure PerCatEntry where
  minutes : Int
  centsPerMin : Int
  centsTotal : Int
deriving DecidableEq, Repr

/-- The cents-per-minute conversion: `Math.round(max(floor, configured)*100)`. -/
def centsPerMinFor (rates : List (String × Rat)) (cat : String) : Int :=
  let configured := (lookupA rates cat).getD 0
  let dollarsPerMin := max ((lookupA CATEGORY_FLOORS cat).getD 0) configured
  round (dollarsPerMin * 100)

/-- `collectWeeklyBillableMinutes({userId, weekStartUTC, weekEndUTC,
tzOffsetMinutes})`: sums per-day billable whole minutes (daily grace applied
per day per category, only for enabled categories) over the user's buckets
inside the window, then converts to cents per category. -/
def collectWeeklyBillableMinutes (consents : List (String × ConsentRaw))
    (counters : List (String × Bucket)) (userId : String)
    (weekStartUTC weekEndUTC tz : Int) : List (String × PerCatEntry) × Int :=
  let snap := getConsentSnapshot consents userId
  let totalsMinutes := counters.foldl (fun acc kv =>
    match parseUserIdAndDay kv.1 with
    | none => acc
    | some ud =>
      if ud.1 = userId ∧ ud.2 ≠ "" ∧
          isDayInRange ud.2 weekStartUTC weekEndUTC tz = true then
        kv.2.byCategory.foldl (fun acc2 cv =>
          if lookupA snap.categoriesOn cv.1 = some true then
            let wholeMins := cv.2.minutes
            let g := max 0 ((lookupA snap.grace cv.1).getD 0)
            bumpAssoc acc2 cv.1 (max 0 (wholeMins - g))
          else acc2) acc
      else acc) []
  let perCat := totalsMinutes.map (fun cm =>
    let centsPerMin := centsPerMinFor snap.rates cm.1
    (cm.1, PerCatEntry.mk cm.2 centsPerMin (centsPerMin * cm.2)))
  (perCat, (perCat.map (fun p => p.2.centsTotal)).sum)

/-! ### Settlement issuer (`chargeWeeklyIfEligible`) -/

structure PaymentIntentRes where
  id : String
  status : String
deriving DecidableEq, Repr

/-- The single create-and-confirm request issued to the payment processor. -/
structure ChargeReq where
  amount : Int
  currency : String
  idempotencyKey : String
  metadata : List (String × String)
deriving DecidableEq, Repr

/-- The JS settlement result object (absent fields are `none`). -/
structure SettleRes where
  ok : Bool
  charged : Int
  carriedCents : Option Int
  reason : Option String
  paymentIntentId : Option String
  status : Option String
deriving DecidableEq, Repr

/-- Outcome of one `chargeWeeklyIfEligible` invocation: the rollover store
afterwards, the external calls issued (none or exactly one), and the
returned value or propagated error. -/
structure SettleOutcome where
  rollovers : List (String × Int)
  calls : List ChargeReq
  result : Except String SettleRes

/-- The idempotency key:
`` `vb_weekly_${userId}_${weekStartStr}_${weekEndStr}_${grandTotal}` ``. -/
def idemKeyFn (userId weekStartStr weekEndStr : String) (grandTotal : Int) : String :=
  "vb_weekly_" ++ userId ++ "_" ++ weekStartStr ++ "_" ++ weekEndStr ++ "_" ++
    intToDecimal grandTotal

/-- The metadata attached to the PaymentIntent: identity of the settlement
plus the per-category minute/cent breakdown and any applied rollover. -/
def settleMeta (userId weekStartStr weekEndStr : String)
    (perCat : List (String × PerCatEntry)) (rollover : Int) :
    List (String × String) :=
  [("userId", userId), ("weekStart", weekStartStr), ("weekEnd", weekEndStr),
    ("reason", "ViceBank weekly settlement")] ++
  (perCat.foldl (fun acc cv =>
    acc ++ [("minutes_" ++ cv.1, intToDecimal cv.2.minutes),
            ("centsPerMin_" ++ cv.1, intToDecimal cv.2.centsPerMin),
            ("cents_" ++ cv.1, intToDecimal cv.2.centsTotal)]) []) ++
  (if 0 < rollover then [("cents_rollover_applied", intToDecimal rollover)] else [])

/-- `chargeWeeklyIfEligible({userId, weekStartStr, weekEndStr, perCat,
totalCents, paymentMethodId})` against a processor oracle `stripe`
(`none` models an unconfigured Stripe client, which throws up front). -/
def chargeWeeklyIfEligible
    (stripe : Option (ChargeReq → Except String PaymentIntentRes))
    (rollovers : List (String × Int)) (userId weekStartStr weekEndStr : String)
    (perCat : List (String × PerCatEntry)) (totalCents : Int)
    (_paymentMethodId : Option String) : SettleOutcome :=
  match stripe with
  | none => ⟨rollovers, [], Except.error "Stripe not configured"⟩
  | some create =>
    let rollover := (lookupA rollovers userId).getD 0
    let grandTotal := totalCents + rollover
    if grandTotal < STRIPE_MIN_CENTS then
      ⟨setA rollovers userId grandTotal, [],
        Except.ok (SettleRes.mk true 0 (some grandTotal) (some "below_minimum")
          none none)⟩
    else
      let idemKey := idemKeyFn userId weekStartStr weekEndStr grandTotal
      let req : ChargeReq :=
        ⟨grandTotal, "usd", idemKey,
          settleMeta userId weekStartStr weekEndStr perCat rollover⟩
      match create req with
      | Except.ok pi =>
        ⟨setA rollovers userId 0, [req],
          Except.ok (SettleRes.mk true grandTotal none none (some pi.id)
            (some pi.status))⟩
      | Except.error e => ⟨rollovers, [req], Except.error e⟩

/-! ### Engine state and exposed read endpoints -/

/-- The three engine-owned stores (`counters`, `consents`,
`weeklyRolloversCents`). -/
structure EngineState where
  counters : List (String × Bucket)
  consents : List (String × ConsentRaw)
  rollovers : List (String × Int)
deriving DecidableEq, Repr

/-- `daysAgoUTCStr(daysAgo)`: today's UTC day string shifted back. -/
def daysAgoUTCStr (now : Int) (daysAgo : Nat) : String :=
  dayStrOfDays (Int.fdiv now 86400000 - daysAgo)

/-- `getBucketByDay(userId, dayStr)`: read-only lookup, never creates. -/
def getBucketByDay (counters : List (String × Bucket)) (userId dayStr : String) :
    Option Bucket :=
  lookupA counters (userId ++ "::" ++ dayStr)

structure DailyBillable where
  existsData : Bool
  billableCents : Int
  minutes : List (String × Int)
  billableMinutes : List (String × Int)
deriving DecidableEq, Repr

/-- `computeDailyBillable({userId, dayStr})`: one day's billable cents after
grace, per enabled category (iterating the fixed `["porn", "gambling"]`). -/
def computeDailyBillable (consents : List (String × ConsentRaw))
    (counters : List (String × Bucket)) (userId dayStr : String) : DailyBillable :=
  let snap := getConsentSnapshot consents userId
  match getBucketByDay counters userId dayStr with
  | none => ⟨false, 0, [], []⟩
  | some bucket =>
    let step := fun (acc : List (String × Int) × List (String × Int) × Int)
        (cat : String) =>
      let m := ((lookupA bucket.byCategory cat).map (fun e => e.minutes)).getD 0
      let minutes := acc.1 ++ [(cat, m)]
      if lookupA snap.categoriesOn cat = some true then
        let g := max 0 ((lookupA snap.grace cat).getD 0)
        let billable := max 0 (m - g)
        (minutes, acc.2.1 ++ [(cat, billable)],
          acc.2.2 + billable * centsPerMinFor snap.rates cat)
      else (minutes, acc.2.1 ++ [(cat, 0)], acc.2.2)
    let r := ["porn", "gambling"].foldl step ([], [], 0)
    ⟨true, r.2.2, r.1, r.2.1⟩

/-- `addDaysUTC(dayStr, days)`.  On a day string JS cannot parse, the JS code
would throw on `toISOString`; such strings never reach it from validated
day keys, and the model returns `"Invalid Date"`. -/
def addDaysUTC (dayStr : String) (days : Int) : String :=
  match parseDayStr dayStr with
  | some m => dayStrOfMs (m + days * 86400000)
  | none => "Invalid Date"

/-- Lexicographic UTF-16 code-unit comparison, the JS default sort order. -/
def strCodeUnitLe : List Char → List Char → Bool
  | [], _ => true
  | _ :: _, [] => false
  | a :: as, b :: bs =>
    if a.toNat < b.toNat then true
    else if b.toNat < a.toNat then false
    else strCodeUnitLe as bs

def insertSorted (s : String) : List String → List String
  | [] => [s]
  | t :: ts =>
    if strCodeUnitLe s.data t.data then s :: t :: ts else t :: insertSorted s ts

def sortStrings (l : List String) : List String :=
  l.foldl (fun acc s => insertSorted s acc) []

/-- `listUserDays(userId)`: the user's `YYYY-MM-DD` day keys present in the
counter store (digit/dash shape checked by regex), ascending. -/
def listUserDays (counters : List (String × Bucket)) (userId : String) :
    List String :=
  let shapeOK : List Char → Bool := fun l =>
    match l with
    | [a, b, c, d, h1, e, f, h2, g, i] =>
      [a, b, c, d, e, f, g, i].all (fun ch => '0' ≤ ch && ch ≤ '9') &&
        h1 = '-' && h2 = '-'
    | _ => false
  let days := counters.foldl (fun acc kv =>
    match parseUserIdAndDay kv.1 with
    | none => acc
    | some ud =>
      if ud.1 = userId ∧ shapeOK ud.2.data then acc ++ [ud.2] else acc) []
  sortStrings days

structure StreakRun where
  startDay : String
  endDay : String
  length : Nat
deriving DecidableEq, Repr

structure StreakStats where
  totalDaysWithData : Nat
  totalCleanDays : Nat
  currentStreakDays : Nat
  lastStreak : Option StreakRun
  lastBreakDay : Option String
deriving DecidableEq, Repr

/-- `computeStreakStats(userId)`: clean-day runs over the user's stored days
(a day with data and zero billable cents is clean; a missing day breaks). -/
def computeStreakStats (consents : List (String × ConsentRaw))
    (counters : List (String × Bucket)) (userId : String) (now : Int) :
    StreakStats :=
  let days := listUserDays counters userId
  let isClean : String → Bool := fun day =>
    let d := computeDailyBillable consents counters userId day
    d.existsData && decide (d.billableCents = 0)
  let step := fun (acc : List StreakRun × Option StreakRun) (day : String) =>
    if isClean day then
      match acc.2 with
      | none => (acc.1, some ⟨day, day, 1⟩)
      | some cur =>
        if day = addDaysUTC cur.endDay 1 then
          (acc.1, some ⟨cur.startDay, day, cur.length + 1⟩)
        else (acc.1 ++ [cur], some ⟨day, day, 1⟩)
    else
      match acc.2 with
      | some cur => (acc.1 ++ [cur], none)
      | none => (acc.1, none)
  let p := days.foldl step ([], none)
  let runs := match p.2 with
    | some cur => p.1 ++ [cur]
    | none => p.1
  let today := dayStrOfMs now
  let todayData := computeDailyBillable consents counters userId today
  let currentStreakDays : Nat :=
    if todayData.existsData && decide (todayData.billableCents = 0) then
      ((runs.find? (fun r => r.endDay = today)).map (fun r => r.length)).getD 0
    else 0
  let lastRun : Option StreakRun :=
    if 0 < runs.length then
      if 0 < currentStreakDays then
        let idx := runs.findIdx (fun r => r.endDay = today)
        if 0 < idx then runs.get? (idx - 1) else none
      else runs.getLast?
    else none
  let lastBreakDay : Option String :=
    match lastRun with
    | none => none
    | some lr =>
      let candidate := addDaysUTC lr.endDay 1
      let candData := computeDailyBillable consents counters userId candidate
      if candData.existsData && decide (0 < candData.billableCents) then
        some candidate
      else none
  ⟨days.length, (days.filter isClean).length, currentStreakDays,
    lastRun, lastBreakDay⟩

structure PreviewResp where
  weekStart : String
  weekEnd : String
  perCategory : List (String × PerCatEntry)
  totalCents : Int
  rolloverCents : Int
  wouldChargeCents : Int
  wouldCarryCents : Int
deriving DecidableEq, Repr

/-- `GET /api/preview/week` — computes bounds, aggregates, previews the
charge/carry split; no store is written. -/
def previewWeekEndpoint (st : EngineState) (userId : String)
    (weekEnd : Option String) (tz now : Int) : EngineState × Option PreviewResp :=
  match getWeekBounds weekEnd now tz with
  | none => (st, none)
  | some wb =>
    let pc := collectWeeklyBillableMinutes st.consents st.counters userId
      wb.weekStartUTC wb.weekEndUTC tz
    let rollover := (lookupA st.rollovers userId).getD 0
    let withRollover := pc.2 + rollover
    (st, some ⟨wb.weekStartStr, wb.weekEndStr, pc.1, pc.2, rollover,
      (if STRIPE_MIN_CENTS ≤ withRollover then withRollover else 0),
      (if withRollover < STRIPE_MIN_CENTS then withRollover else 0)⟩)

structure CountersTodayResp where
  day : String
  updatedAt : Int
  byCategory : List (String × CatEntry)
  byDomain : List (String × DomEntry)
deriving DecidableEq, Repr

/-- `GET /api/counters/today` — note: uses `ensureCounterBucket`, which
creates today's (empty) bucket when it is absent. -/
def countersTodayEndpoint (st : EngineState) (userId : String) (now : Int) :
    EngineState × CountersTodayResp :=
  let er := ensureCounterBucket st.counters userId now
  (⟨er.1, st.consents, st.rollovers⟩,
    ⟨dayKey now, er.2.updatedAt, er.2.byCategory, er.2.byDomain⟩)

structure DashDay where
  day : String
  status : String
  billableCents : Int
  minutes : List (String × Int)
  billableMinutes : List (String × Int)
deriving DecidableEq, Repr

structure DashboardResp where
  wallet : PreviewResp
  streakDays : Nat
  totalCleanDays : Nat
  totalDaysWithData : Nat
  lastStreak : Option StreakRun
  lastBreakDay : Option String
  last14 : List DashDay
deriving DecidableEq, Repr

/-- `GET /api/dashboard` — wallet preview plus streak analytics; a pure
read of all three stores. -/
def dashboardEndpoint (st : EngineState) (userId : String) (tz now : Int) :
    EngineState × DashboardResp :=
  let wb := getWeekBoundsCore now tz
  let pc := collectWeeklyBillableMinutes st.consents st.counters userId
    wb.weekStartUTC wb.weekEndUTC tz
  let rollover := (lookupA st.rollovers userId).getD 0
  let wouldCharge := if STRIPE_MIN_CENTS ≤ pc.2 + rollover then pc.2 + rollover else 0
  let wouldCarry := if pc.2 + rollover < STRIPE_MIN_CENTS then pc.2 + rollover else 0
  let ss := computeStreakStats st.consents st.counters userId now
  let lastDays := (List.range 14).map (fun i =>
    let dayStr := daysAgoUTCStr now (13 - i)
    let d := computeDailyBillable st.consents st.counters userId dayStr
    DashDay.mk dayStr
      (if !d.existsData then "no_data"
       else if 0 < d.billableCents then "billable" else "clean")
      d.billableCents d.minutes d.billableMinutes)
  (st, ⟨⟨wb.weekStartStr, wb.weekEndStr, pc.1, pc.2, rollover, wouldCharge,
      wouldCarry⟩,
    ss.currentStreakDays, ss.totalCleanDays, ss.totalDaysWithData,
    ss.lastStreak, ss.lastBreakDay, lastDays⟩)

/-! ### Helper definitions and lemmas used by the claim theorems -/

/-- Iterated `addUsage` for a fixed (user, domain, category):
`calls` is the list of `(seconds, ts)` pairs. -/
def addUsageSeq (counters : List (String × Bucket)) (u dom cat : String)
    (calls : List (Int × Int)) : List (String × Bucket) :=
  calls.foldl (fun st p => addUsage st u dom cat p.1 p.2) counters

/-- The category entry stored under a bucket key, when present. -/
def catEntryAt (counters : List (String × Bucket)) (key cat : String) :
    Option CatEntry :=
  (lookupA counters key).bind (fun b => lookupA b.byCategory cat)

/-- The minutes of a stored category entry (0 when absent). -/
def catMinutesAt (counters : List (String × Bucket)) (key cat : String) : Int :=
  ((catEntryAt counters key cat).map (fun e => e.minutes)).getD 0

/-- One `addUsage` update of a category entry: add the seconds, carry whole
minutes out whenever the running seconds reach 60. -/
def stepEntry (e : CatEntry) (s : Int) : CatEntry :=
  let s' := e.seconds + s
  if 60 ≤ s' then ⟨e.minutes + Int.fdiv s' 60, s' % 60⟩ else ⟨e.minutes, s'⟩

theorem lookupA_initBucket_getD (ts : Int) (cat : String) :
    (lookupA (initBucket ts).byCategory cat).getD ⟨0, 0⟩ = (⟨0, 0⟩ : CatEntry) := by
  by_cases h1 : ("porn" : String) = cat <;>
    by_cases h2 : ("gambling" : String) = cat <;>
      simp [initBucket, lookupA, h1, h2]

theorem addUsage_catEntry (st : List (String × Bucket)) (u dom cat : String)
    (s ts : Int) (hu : u ≠ "") (hd : dom ≠ "") (hc : cat ≠ "") (hs : s ≠ 0) :
    catEntryAt (addUsage st u dom cat s ts) (keyUserDay u ts) cat
      = some (stepEntry
          ((lookupA (ensureCounterBucket st u ts).2.byCategory cat).getD ⟨0, 0⟩) s) := by
  have hguard : ¬ (u = "" ∨ dom = "" ∨ cat = "" ∨ s = 0) := by
    simp [hu, hd, hc, hs]
  simp only [addUsage, hguard, if_false, catEntryAt]
  rw [lookupA_setA_self]
  rw [Option.some_bind]
  show lookupA (setA _ cat _) cat = _
  rw [lookupA_setA_self]
  rfl

/-! ### C8 — `addUsage` precondition guard -/

/-- **C8** (amended).  `addUsage` is a silent no-op exactly on the JS falsy
guard: when `userId`, `domain` or `category` is empty or `seconds` is zero,
the counter store is returned completely unchanged.  (A negative `seconds`
is NOT caught by the falsy guard — see the counterexample.) -/
theorem addUsage_guard_noop (counters : List (String × Bucket))
    (userId domain category : String) (seconds ts : Int)
    (h : userId = "" ∨ domain = "" ∨ category = "" ∨ seconds = 0) :
    addUsage counters userId domain category seconds ts = counters := by
  unfold addUsage
  rw [if_pos h]

theorem addUsage_guard_noop_witness :
    addUsage [] "" "d.com" "porn" 5 0 = [] ∧
    addUsage [("k", initBucket 0)] "u1" "" "porn" 5 0 = [("k", initBucket 0)] ∧
    addUsage [] "u1" "d.com" "porn" 0 0 = [] :=
  ⟨addUsage_guard_noop [] "" "d.com" "porn" 5 0 (Or.inl rfl),
   addUsage_guard_noop [("k", initBucket 0)] "u1" "" "porn" 5 0 (Or.inr (Or.inl rfl)),
   addUsage_guard_noop [] "u1" "d.com" "porn" 0 0 (Or.inr (Or.inr (Or.inr rfl)))⟩

/-- **C8 counterexample.**  The claim says a non-positive `seconds` is a
no-op; the code's falsy guard lets `seconds = -5` through, creating and
mutating a bucket. -/
theorem addUsage_negative_seconds_mutates :
    addUsage [] "u1" "d.com" "porn" (-5) 0 ≠ [] ∧
    catEntryAt (addUsage [] "u1" "d.com" "porn" (-5) 0) "u1::1970-01-01" "porn"
      = some ⟨0, -5⟩ := by
  constructor
  · decide
  · decide

/-! ### C4 — idempotency-key determinism and injectivity -/

theorem idemKeyFn_split (u ws we : String) (g : Int) :
    idemKeyFn u ws we g
      = ("vb_weekly_" ++ u ++ "_" ++ ws ++ "_" ++ we ++ "_") ++ intToDecimal g := by
  simp [idemKeyFn, String.append_assoc]

theorem string_append_left_cancel {s a b : String} (h : s ++ a = s ++ b) :
    a = b := by
  have hdata : s.data ++ a.data = s.data ++ b.data := by
    rw [← data_append, ← data_append, h]
  have h2 := List.append_cancel_left hdata
  cases a; cases b
  exact congrArg String.mk h2

theorem idemKeyFn_inj_grandTotal (u ws we : String) (g1 g2 : Int)
    (h : idemKeyFn u ws we g1 = idemKeyFn u ws we g2) : g1 = g2 := by
  rw [idemKeyFn_split, idemKeyFn_split] at h
  exact intToDecimal_injective (string_append_left_cancel h)

/-- Whenever the grand total reaches the minimum, `chargeWeeklyIfEligible`
issues exactly one external request, keyed by `idemKeyFn` of
`(userId, weekStartStr, weekEndStr, grandTotal)` — for any oracle. -/
theorem chargeWeekly_calls_key
    (create : ChargeReq → Except String PaymentIntentRes)
    (rollovers : List (String × Int)) (u ws we : String)
    (perCat : List (String × PerCatEntry)) (t : Int) (pm : Option String)
    (hge : STRIPE_MIN_CENTS ≤ t + (lookupA rollovers u).getD 0) :
    (chargeWeeklyIfEligible (some create) rollovers u ws we perCat t pm).calls.map
        (fun r => r.idempotencyKey)
      = [idemKeyFn u ws we (t + (lookupA rollovers u).getD 0)] := by
  have hge' : ¬ (t + (lookupA rollovers u).getD 0 < STRIPE_MIN_CENTS) := by
    omega
  simp only [chargeWeeklyIfEligible]
  rw [if_neg hge']
  cases create ⟨t + (lookupA rollovers u).getD 0, "usd",
      idemKeyFn u ws we (t + (lookupA rollovers u).getD 0),
      settleMeta u ws we perCat ((lookupA rollovers u).getD 0)⟩ <;> rfl

/-- **C4.**  The settlement idempotency key is a deterministic function of
`(userId, weekStartStr, weekEndStr, grandTotal)`: any settle attempt that
reaches the external call issues exactly one request whose key is
`idemKeyFn userId weekStartStr weekEndStr grandTotal` — so two attempts
with identical tuples carry the same key — and for a fixed user and week,
attempts with different grand totals produce different keys. -/
theorem settle_idemKey_deterministic_and_injective :
    (∀ (create : ChargeReq → Except String PaymentIntentRes)
      (rollovers : List (String × Int)) (u ws we : String)
      (perCat : List (String × PerCatEntry)) (t : Int) (pm : Option String),
      STRIPE_MIN_CENTS ≤ t + (lookupA rollovers u).getD 0 →
      (chargeWeeklyIfEligible (some create) rollovers u ws we perCat t pm).calls.map
          (fun r => r.idempotencyKey)
        = [idemKeyFn u ws we (t + (lookupA rollovers u).getD 0)]) ∧
    (∀ (u ws we : String) (g1 g2 : Int), g1 ≠ g2 →
      idemKeyFn u ws we g1 ≠ idemKeyFn u ws we g2) := by
  constructor
  · intro create rollovers u ws we perCat t pm hge
    exact chargeWeekly_calls_key create rollovers u ws we perCat t pm hge
  · intro u ws we g1 g2 hne h
    exact hne (idemKeyFn_inj_grandTotal u ws we g1 g2 h)

theorem settle_idemKey_witness :
    ((chargeWeeklyIfEligible
        (some (fun _ => Except.ok ⟨"pi_1", "succeeded"⟩)) [] "u1" "2024-12-30"
        "2025-01-05" [] 585 none).calls.map (fun r => r.idempotencyKey)
      = [idemKeyFn "u1" "2024-12-30" "2025-01-05" 585]) ∧
    idemKeyFn "u1" "2024-12-30" "2025-01-05" 585
      ≠ idemKeyFn "u1" "2024-12-30" "2025-01-05" 586 :=
  ⟨settle_idemKey_deterministic_and_injective.1
      (fun _ => Except.ok ⟨"pi_1", "succeeded"⟩) [] "u1" "2024-12-30"
      "2025-01-05" [] 585 none (by decide),
   settle_idemKey_deterministic_and_injective.2 "u1" "2024-12-30" "2025-01-05"
      585 586 (by decide)⟩

/-! ### C2 — below-minimum carry decision -/

/-- **C2.**  When `totalCents + rollover < 50` the settlement makes no
external call, returns `{charged: 0, carriedCents: grandTotal,
reason: "below_minimum"}`, and REPLACES the rollover by the grand total;
a later settlement whose own total plus that rollover reaches 50 cents and
whose external call succeeds charges the combined amount and zeroes the
rollover. -/
theorem settle_below_minimum_carry
    (create create2 : ChargeReq → Except String PaymentIntentRes)
    (rollovers : List (String × Int)) (u ws we ws2 we2 : String)
    (perCat perCat2 : List (String × PerCatEntry)) (t1 t2 : Int)
    (pm pm2 : Option String) (pi : PaymentIntentRes)
    (hlow : t1 + (lookupA rollovers u).getD 0 < STRIPE_MIN_CENTS) :
    (chargeWeeklyIfEligible (some create) rollovers u ws we perCat t1 pm).calls
        = [] ∧
    (chargeWeeklyIfEligible (some create) rollovers u ws we perCat t1 pm).result
        = Except.ok (SettleRes.mk true 0
            (some (t1 + (lookupA rollovers u).getD 0)) (some "below_minimum")
            none none) ∧
    (chargeWeeklyIfEligible (some create) rollovers u ws we perCat t1 pm).rollovers
        = setA rollovers u (t1 + (lookupA rollovers u).getD 0) ∧
    (STRIPE_MIN_CENTS ≤ t2 + (t1 + (lookupA rollovers u).getD 0) →
      create2 ⟨t2 + (t1 + (lookupA rollovers u).getD 0), "usd",
          idemKeyFn u ws2 we2 (t2 + (t1 + (lookupA rollovers u).getD 0)),
          settleMeta u ws2 we2 perCat2 (t1 + (lookupA rollovers u).getD 0)⟩
        = Except.ok pi →
      (chargeWeeklyIfEligible (some create2)
          (chargeWeeklyIfEligible (some create) rollovers u ws we perCat t1
            pm).rollovers u ws2 we2 perCat2 t2 pm2).result
          = Except.ok (SettleRes.mk true (t2 + (t1 + (lookupA rollovers u).getD 0))
              none none (some pi.id) (some pi.status)) ∧
      lookupA (chargeWeeklyIfEligible (some create2)
          (chargeWeeklyIfEligible (some create) rollovers u ws we perCat t1
            pm).rollovers u ws2 we2 perCat2 t2 pm2).rollovers u = some 0) := by
  have h1 : chargeWeeklyIfEligible (some create) rollovers u ws we perCat t1 pm
      = ⟨setA rollovers u (t1 + (lookupA rollovers u).getD 0), [],
          Except.ok (SettleRes.mk true 0
            (some (t1 + (lookupA rollovers u).getD 0)) (some "below_minimum")
            none none)⟩ := by
    simp only [chargeWeeklyIfEligible]
    rw [if_pos hlow]
  refine ⟨by rw [h1], by rw [h1], by rw [h1], ?_⟩
  intro hge hok
  rw [h1]
  have hroll : (lookupA (setA rollovers u (t1 + (lookupA rollovers u).getD 0))
      u).getD 0 = t1 + (lookupA rollovers u).getD 0 := by
    rw [lookupA_setA_self]; rfl
  have h2 : chargeWeeklyIfEligible (some create2)
      (setA rollovers u (t1 + (lookupA rollovers u).getD 0)) u ws2 we2 perCat2
      t2 pm2
      = ⟨setA (setA rollovers u (t1 + (lookupA rollovers u).getD 0)) u 0,
          [⟨t2 + (t1 + (lookupA rollovers u).getD 0), "usd",
            idemKeyFn u ws2 we2 (t2 + (t1 + (lookupA rollovers u).getD 0)),
            settleMeta u ws2 we2 perCat2 (t1 + (lookupA rollovers u).getD 0)⟩],
          Except.ok (SettleRes.mk true (t2 + (t1 + (lookupA rollovers u).getD 0))
            none none (some pi.id) (some pi.status))⟩ := by
    simp only [chargeWeeklyIfEligible, hroll]
    rw [if_neg (by omega)]
    rw [hok]
  rw [h2]
  exact ⟨rfl, by rw [lookupA_setA_self]⟩

theorem settle_below_minimum_carry_witness :
    (STRIPE_MIN_CENTS ≤ 40 + (20 + (lookupA ([] : List (String × Int))
        "u1").getD 0)) ∧
    (chargeWeeklyIfEligible
        (some (fun _ => Except.ok ⟨"pi_1", "succeeded"⟩)) [] "u1" "a" "b" [] 20
        none).calls = [] ∧
    (chargeWeeklyIfEligible
        (some (fun _ => Except.ok ⟨"pi_1", "succeeded"⟩)) [] "u1" "a" "b" [] 20
        none).rollovers = [("u1", 20)] ∧
    (chargeWeeklyIfEligible (some (fun _ => Except.ok ⟨"pi_1", "succeeded"⟩))
        (chargeWeeklyIfEligible
          (some (fun _ => Except.ok ⟨"pi_1", "succeeded"⟩)) [] "u1" "a" "b" []
          20 none).rollovers "u1" "c" "d" [] 40 none).result
      = Except.ok (SettleRes.mk true 60 none none (some "pi_1")
          (some "succeeded")) := by
  have h := settle_below_minimum_carry
    (fun _ => Except.ok ⟨"pi_1", "succeeded"⟩)
    (fun _ => Except.ok ⟨"pi_1", "succeeded"⟩)
    [] "u1" "a" "b" "c" "d" [] [] 20 40 none none ⟨"pi_1", "succeeded"⟩
    (by decide)
  have h4 := h.2.2.2 (by decide) rfl
  exact ⟨by decide, h.1, by rw [h.2.2.1]; rfl, by
    have := h4.1
    simpa using this⟩

/-! ### C3 — settlement failure atomicity -/

/-- **C3.**  If the external call fails, the rollover store is unchanged,
the failure propagates to the caller, exactly one request was issued, its
idempotency key is the deterministic `idemKeyFn` of
`(userId, weekStartStr, weekEndStr, grandTotal)`, and a retry on the
resulting state (any oracle, same inputs) issues the identical key. -/
theorem settle_failure_atomic
    (create : ChargeReq → Except String PaymentIntentRes)
    (rollovers : List (String × Int)) (u ws we : String)
    (perCat : List (String × PerCatEntry)) (t : Int) (pm : Option String)
    (e : String)
    (hge : STRIPE_MIN_CENTS ≤ t + (lookupA rollovers u).getD 0)
    (hfail : create ⟨t + (lookupA rollovers u).getD 0, "usd",
        idemKeyFn u ws we (t + (lookupA rollovers u).getD 0),
        settleMeta u ws we perCat ((lookupA rollovers u).getD 0)⟩
      = Except.error e) :
    (chargeWeeklyIfEligible (some create) rollovers u ws we perCat t pm).rollovers
        = rollovers ∧
    (chargeWeeklyIfEligible (some create) rollovers u ws we perCat t pm).result
        = Except.error e ∧
    (chargeWeeklyIfEligible (some create) rollovers u ws we perCat t pm).calls
        = [⟨t + (lookupA rollovers u).getD 0, "usd",
            idemKeyFn u ws we (t + (lookupA rollovers u).getD 0),
            settleMeta u ws we perCat ((lookupA rollovers u).getD 0)⟩] ∧
    (∀ create' : ChargeReq → Except String PaymentIntentRes,
      ∀ pm' : Option String,
      (chargeWeeklyIfEligible (some create')
          (chargeWeeklyIfEligible (some create) rollovers u ws we perCat t
            pm).rollovers u ws we perCat t pm').calls.map
          (fun r => r.idempotencyKey)
        = [idemKeyFn u ws we (t + (lookupA rollovers u).getD 0)]) := by
  have hmain : chargeWeeklyIfEligible (some create) rollovers u ws we perCat t pm
      = ⟨rollovers,
          [⟨t + (lookupA rollovers u).getD 0, "usd",
            idemKeyFn u ws we (t + (lookupA rollovers u).getD 0),
            settleMeta u ws we perCat ((lookupA rollovers u).getD 0)⟩],
          Except.error e⟩ := by
    simp only [chargeWeeklyIfEligible]
    rw [if_neg (by omega)]
    rw [hfail]
  refine ⟨by rw [hmain], by rw [hmain], by rw [hmain], ?_⟩
  intro create' pm'
  rw [hmain]
  exact chargeWeekly_calls_key create' rollovers u ws we perCat t pm' hge

theorem settle_failure_atomic_witness :
    (STRIPE_MIN_CENTS ≤ 60 + (lookupA [("u1", (0 : Int))] "u1").getD 0) ∧
    (chargeWeeklyIfEligible (some (fun _ => Except.error "card_declined"))
        [("u1", 0)] "u1" "a" "b" [] 60 none).rollovers = [("u1", 0)] ∧
    (chargeWeeklyIfEligible (some (fun _ => Except.error "card_declined"))
        [("u1", 0)] "u1" "a" "b" [] 60 none).result
      = Except.error "card_declined" := by
  have h := settle_failure_atomic
    (fun _ => Except.error "card_declined") [("u1", 0)] "u1" "a" "b" [] 60 none
    "card_declined" (by decide) rfl
  exact ⟨by decide, h.1, h.2.1⟩

/-! ### C9 — mutation frame of the exposed read endpoints -/

/-- **C9** (amended).  `previewWeek` and `dashboard` leave the whole engine
state unchanged for every user.  The today-snapshot endpoint leaves the
consent and rollover stores unchanged, and leaves the counter store
unchanged whenever the user's bucket for today exists — but when it is
absent the endpoint INSERTS today's empty bucket (so it is a mutating
entrypoint, contrary to the claim as stated). -/
theorem read_endpoints_frame (st : EngineState) (u : String)
    (we : Option String) (tz now : Int) :
    (previewWeekEndpoint st u we tz now).1 = st ∧
    (dashboardEndpoint st u tz now).1 = st ∧
    (countersTodayEndpoint st u now).1.consents = st.consents ∧
    (countersTodayEndpoint st u now).1.rollovers = st.rollovers ∧
    (lookupA st.counters (keyUserDay u now) ≠ none →
      (countersTodayEndpoint st u now).1 = st) ∧
    (lookupA st.counters (keyUserDay u now) = none →
      (countersTodayEndpoint st u now).1.counters
        = setA st.counters (keyUserDay u now) (initBucket now)) := by
  refine ⟨?_, rfl, rfl, rfl, ?_, ?_⟩
  · unfold previewWeekEndpoint
    cases getWeekBounds we now tz <;> rfl
  · intro hsome
    unfold countersTodayEndpoint ensureCounterBucket
    cases hlk : lookupA st.counters (keyUserDay u now) with
    | some b => simp only [hlk]
    | none => exact absurd hlk hsome
  · intro hnone
    unfold countersTodayEndpoint ensureCounterBucket
    simp only [hnone]

theorem read_endpoints_frame_witness :
    (previewWeekEndpoint ⟨[], [], [("u1", 20)]⟩ "u1" none 0 0).1
      = ⟨[], [], [("u1", 20)]⟩ ∧
    (lookupA (⟨[("u1::1970-01-01", initBucket 0)], [], []⟩ :
        EngineState).counters (keyUserDay "u1" 0) ≠ none) ∧
    (countersTodayEndpoint ⟨[("u1::1970-01-01", initBucket 0)], [], []⟩ "u1"
        0).1 = ⟨[("u1::1970-01-01", initBucket 0)], [], []⟩ := by
  refine ⟨(read_endpoints_frame ⟨[], [], [("u1", 20)]⟩ "u1" none 0 0).1,
    by decide, ?_⟩
  exact (read_endpoints_frame ⟨[("u1::1970-01-01", initBucket 0)], [], []⟩
    "u1" none 0 0).2.2.2.2.1 (by decide)

/-- **C9 counterexample.**  The claim says the today-snapshot read leaves the
counter store unchanged; on a state with no bucket for (u1, today) the
endpoint inserts an empty bucket, changing the counter store (and hence the
set of days that the streak analytics see as having data). -/
theorem counters_today_mutates :
    (countersTodayEndpoint ⟨[], [], []⟩ "u1" 0).1 ≠ ⟨[], [], []⟩ ∧
    (countersTodayEndpoint ⟨[], [], []⟩ "u1" 0).1.counters
      = [("u1::1970-01-01", initBucket 0)] := by
  constructor
  · decide
  · decide

/-! ### C6 — Sunday fixpoint of week bounds -/

theorem fdiv_day (a : Int) : Int.fdiv a 86400000 = a / 86400000 :=
  Int.fdiv_eq_ediv a (by norm_num)

theorem getWeekBoundsCore_sunday (dn : Int) (hsun : (dn + 4) % 7 = 0) :
    getWeekBoundsCore (86400000 * dn) 0
      = ⟨86400000 * (dn - 6), 86400000 * dn + 86399999,
          dayStrOfDays (dn - 6), dayStrOfDays dn⟩ := by
  have h1 : Int.fdiv (86400000 * dn) 86400000 = dn := by
    rw [fdiv_day]; omega
  have h2 : Int.fdiv (86400000 * dn - 518400000) 86400000 = dn - 6 := by
    rw [fdiv_day]; omega
  have h4 : Int.fdiv (86400000 * dn + 86399999) 86400000 = dn := by
    rw [fdiv_day]; omega
  unfold getWeekBoundsCore truncDayMs dowOfMs dayStrOfMs
  simp only [mul_zero, zero_mul, add_zero, sub_zero, h1, hsun]
  norm_num [h1, h2, h4]

/-- **C6** (amended to `tzOffsetMinutes = 0`).  With offset 0, a week-end
date string that is already a Sunday (epoch day `dn`, `(dn+4) % 7 = 0`) maps
to itself: `weekEndStr` is the UTC string of day `dn` itself (not the
following week), `weekStartStr` is the UTC string of `dn - 6`, which is a
Monday.  (For nonzero offsets the UTC-formatted strings shift by one day —
see the counterexample.) -/
theorem weekBounds_sunday_fixpoint (s : String) (dn now : Int)
    (hparse : parseDayStr s = some (86400000 * dn))
    (hsun : (dn + 4) % 7 = 0) :
    getWeekBounds (some s) now 0
      = some ⟨86400000 * (dn - 6), 86400000 * dn + 86399999,
          dayStrOfDays (dn - 6), dayStrOfDays dn⟩ ∧
    (dn - 6 + 4) % 7 = 1 := by
  constructor
  · simp only [getWeekBounds, hparse, Option.map_some']
    rw [getWeekBoundsCore_sunday dn hsun]
  · omega

theorem weekBounds_sunday_fixpoint_witness :
    parseDayStr "2025-01-05" = some (86400000 * 20093) ∧
    ((20093 : Int) + 4) % 7 = 0 ∧
    dayStrOfDays 20093 = "2025-01-05" ∧
    dayStrOfDays (20093 - 6) = "2024-12-30" ∧
    getWeekBounds (some "2025-01-05") 0 0
      = some ⟨86400000 * (20093 - 6), 86400000 * 20093 + 86399999,
          dayStrOfDays (20093 - 6), dayStrOfDays 20093⟩ := by
  refine ⟨by decide, by decide, by decide, by decide, ?_⟩
  exact (weekBounds_sunday_fixpoint "2025-01-05" 20093 0 (by decide)
    (by decide)).1

/-- **C6 counterexample.**  The claim quantifies over every timezone offset;
at `tzOffsetMinutes = -60` the Sunday string `"2025-01-05"` does not map to
itself: `weekEndStr` comes out as `"2025-01-06"` (and at `+60`,
`weekStartStr` comes out seven days earlier instead of six). -/
theorem weekBounds_sunday_tz_counterexample :
    dayStrOfDays 20093 = "2025-01-05" ∧
    ((20093 : Int) + 4) % 7 = 0 ∧
    (getWeekBounds (some "2025-01-05") 0 (-60)).map (fun wb => wb.weekEndStr)
      = some "2025-01-06" ∧
    (getWeekBounds (some "2025-01-05") 0 60).map (fun wb => wb.weekStartStr)
      = some "2024-12-29" := by
  refine ⟨by decide, by decide, by decide, by decide⟩

/-! ### C1 — chunking-invariance of usage accumulation -/

theorem fdiv60 (a : Int) : Int.fdiv a 60 = a / 60 :=
  Int.fdiv_eq_ediv a (by norm_num)

theorem stepEntry_spec (e : CatEntry) (s T : Int) (h0 : 0 ≤ e.seconds)
    (h60 : e.seconds < 60) (hT : e.minutes * 60 + e.seconds = T) (hs : 0 < s) :
    (stepEntry e s).minutes * 60 + (stepEntry e s).seconds = T + s ∧
    0 ≤ (stepEntry e s).seconds ∧ (stepEntry e s).seconds < 60 ∧
    e.minutes ≤ (stepEntry e s).minutes := by
  unfold stepEntry
  by_cases hcarry : 60 ≤ e.seconds + s
  · simp only [hcarry, if_true]
    have hfd := fdiv60 (e.seconds + s)
    refine ⟨by rw [hfd]; ring_nf; omega, by omega, by omega, by
      rw [hfd]; omega⟩
  · simp only [hcarry, if_false]
    exact ⟨by omega, by omega, by omega, le_refl _⟩

theorem ensureCounterBucket_of_lookup_some {st : List (String × Bucket)}
    {u : String} {ts : Int} {b : Bucket}
    (hb : lookupA st (keyUserDay u ts) = some b) :
    ensureCounterBucket st u ts = (st, b) := by
  unfold ensureCounterBucket
  simp only [hb]

theorem ensureCounterBucket_of_lookup_none {st : List (String × Bucket)}
    {u : String} {ts : Int}
    (hb : lookupA st (keyUserDay u ts) = none) :
    ensureCounterBucket st u ts
      = (setA st (keyUserDay u ts) (initBucket ts), initBucket ts) := by
  unfold ensureCounterBucket
  simp only [hb]

theorem addUsageSeq_append (st : List (String × Bucket)) (u dom cat : String)
    (l1 l2 : List (Int × Int)) :
    addUsageSeq st u dom cat (l1 ++ l2)
      = addUsageSeq (addUsageSeq st u dom cat l1) u dom cat l2 := by
  simp [addUsageSeq, List.foldl_append]

theorem addUsageSeq_inv (u dom cat d : String) (hu : u ≠ "") (hd : dom ≠ "")
    (hc : cat ≠ "") :
    ∀ (calls : List (Int × Int)) (st : List (String × Bucket)) (e : CatEntry)
      (T : Int),
      (∀ p ∈ calls, 0 < p.1 ∧ dayKey p.2 = d) →
      catEntryAt st (u ++ "::" ++ d) cat = some e →
      e.minutes * 60 + e.seconds = T → 0 ≤ e.seconds → e.seconds < 60 →
      ∃ e', catEntryAt (addUsageSeq st u dom cat calls) (u ++ "::" ++ d) cat
          = some e' ∧
        e'.minutes * 60 + e'.seconds = T + (calls.map Prod.fst).sum ∧
        0 ≤ e'.seconds ∧ e'.seconds < 60 ∧ e.minutes ≤ e'.minutes := by
  intro calls
  induction calls with
  | nil =>
    intro st e T _ he hT h0 h60
    exact ⟨e, he, by simpa [addUsageSeq] using hT, h0, h60, le_refl _⟩
  | cons p rest ih =>
    intro st e T hcalls he hT h0 h60
    have hp := hcalls p (List.mem_cons_self p rest)
    have hkey : keyUserDay u p.2 = u ++ "::" ++ d := by
      unfold keyUserDay; rw [hp.2]
    obtain ⟨b, hb, hbe⟩ : ∃ b, lookupA st (u ++ "::" ++ d) = some b ∧
        lookupA b.byCategory cat = some e := by
      unfold catEntryAt at he
      cases hlk : lookupA st (u ++ "::" ++ d) with
      | none => rw [hlk] at he; simp at he
      | some b => rw [hlk] at he; exact ⟨b, rfl, by simpa using he⟩
    have hens : ensureCounterBucket st u p.2 = (st, b) :=
      ensureCounterBucket_of_lookup_some (by rw [hkey]; exact hb)
    have hstep := addUsage_catEntry st u dom cat p.1 p.2 hu hd hc
      (by omega)
    rw [hens] at hstep
    simp only [hbe, Option.getD_some] at hstep
    rw [hkey] at hstep
    have hspec := stepEntry_spec e p.1 T h0 h60 hT hp.1
    have hrest : ∀ q ∈ rest, 0 < q.1 ∧ dayKey q.2 = d := fun q hq =>
      hcalls q (List.mem_cons_of_mem p hq)
    obtain ⟨e', he', hsum, h0', h60', hmono⟩ :=
      ih (addUsage st u dom cat p.1 p.2) (stepEntry e p.1) (T + p.1) hrest
        hstep hspec.1 hspec.2.1 hspec.2.2.1
    refine ⟨e', by simpa [addUsageSeq] using he', ?_, h0', h60', ?_⟩
    · rw [hsum]; simp; ring
    · exact le_trans hspec.2.2.2 hmono

theorem addUsageSeq_fresh (u dom cat d : String) (st0 : List (String × Bucket))
    (calls : List (Int × Int)) (hu : u ≠ "") (hd : dom ≠ "") (hc : cat ≠ "")
    (hfresh : lookupA st0 (u ++ "::" ++ d) = none)
    (hcalls : ∀ p ∈ calls, 0 < p.1 ∧ dayKey p.2 = d) (hne : calls ≠ []) :
    ∃ e', catEntryAt (addUsageSeq st0 u dom cat calls) (u ++ "::" ++ d) cat
        = some e' ∧
      e'.minutes * 60 + e'.seconds = (calls.map Prod.fst).sum ∧
      0 ≤ e'.seconds ∧ e'.seconds < 60 ∧ 0 ≤ e'.minutes := by
  cases calls with
  | nil => exact absurd rfl hne
  | cons q rest =>
    have hq := hcalls q (List.mem_cons_self q rest)
    have hkey : keyUserDay u q.2 = u ++ "::" ++ d := by
      unfold keyUserDay; rw [hq.2]
    have hens : ensureCounterBucket st0 u q.2
        = (setA st0 (keyUserDay u q.2) (initBucket q.2), initBucket q.2) :=
      ensureCounterBucket_of_lookup_none (by rw [hkey]; exact hfresh)
    have hstep := addUsage_catEntry st0 u dom cat q.1 q.2 hu hd hc (by omega)
    rw [hens] at hstep
    rw [lookupA_initBucket_getD] at hstep
    rw [hkey] at hstep
    have hspec := stepEntry_spec ⟨0, 0⟩ q.1 0 (by norm_num) (by norm_num)
      (by norm_num) hq.1
    have hrest : ∀ p ∈ rest, 0 < p.1 ∧ dayKey p.2 = d := fun p hp =>
      hcalls p (List.mem_cons_of_mem q hp)
    obtain ⟨e', he', hsum, h0', h60', hmono⟩ :=
      addUsageSeq_inv u dom cat d hu hd hc rest
        (addUsage st0 u dom cat q.1 q.2) (stepEntry ⟨0, 0⟩ q.1) (0 + q.1)
        hrest hstep hspec.1 hspec.2.1 hspec.2.2.1
    refine ⟨e', by simpa [addUsageSeq] using he', ?_, h0', h60', ?_⟩
    · rw [hsum]; simp
    · have : (0 : Int) ≤ (stepEntry ⟨0, 0⟩ q.1).minutes := by
        unfold stepEntry
        by_cases hcarry : 60 ≤ (CatEntry.mk 0 0).seconds + q.1 <;>
          simp only [hcarry, if_true, if_false]
        · rw [fdiv60]; simp; omega
        · simp
      omega

/-- **C1.**  Chunking-invariance: starting from any store with no bucket for
the fixed `(userId, day)`, folding any non-empty sequence of `addUsage`
calls with positive integer seconds for a fixed (user, domain, category)
whose timestamps all fall on that day yields a category entry whose
`minutes` is `⌊totalSeconds / 60⌋` and whose leftover `seconds` is
`totalSeconds % 60` (hence < 60), independent of the chunking; and along any
prefix of the sequence the stored minutes never decrease. -/
theorem addUsage_chunking_invariance (u dom cat d : String)
    (st0 : List (String × Bucket)) (calls : List (Int × Int))
    (hu : u ≠ "") (hd : dom ≠ "") (hc : cat ≠ "")
    (hfresh : lookupA st0 (u ++ "::" ++ d) = none)
    (hcalls : ∀ p ∈ calls, 0 < p.1 ∧ dayKey p.2 = d) (hne : calls ≠ []) :
    catEntryAt (addUsageSeq st0 u dom cat calls) (u ++ "::" ++ d) cat
      = some ⟨Int.fdiv ((calls.map Prod.fst).sum) 60,
          ((calls.map Prod.fst).sum) % 60⟩ ∧
    ((calls.map Prod.fst).sum) % 60 < 60 ∧
    (∀ l1 l2, calls = l1 ++ l2 →
      catMinutesAt (addUsageSeq st0 u dom cat l1) (u ++ "::" ++ d) cat
        ≤ catMinutesAt (addUsageSeq st0 u dom cat calls) (u ++ "::" ++ d) cat) := by
  obtain ⟨e', he', hsum, h0', h60', hm0⟩ :=
    addUsageSeq_fresh u dom cat d st0 calls hu hd hc hfresh hcalls hne
  have hev : e' = ⟨Int.fdiv ((calls.map Prod.fst).sum) 60,
      ((calls.map Prod.fst).sum) % 60⟩ := by
    obtain ⟨m, s⟩ := e'
    simp only [CatEntry.mk.injEq]
    rw [fdiv60]
    simp only at hsum h0' h60'
    constructor <;> omega
  refine ⟨by rw [← hev]; exact he', by omega, ?_⟩
  intro l1 l2 hsplit
  have hfinal : catMinutesAt (addUsageSeq st0 u dom cat calls)
      (u ++ "::" ++ d) cat = e'.minutes := by
    unfold catMinutesAt
    rw [he']
    rfl
  cases hl1 : l1 with
  | nil =>
    have : catMinutesAt (addUsageSeq st0 u dom cat []) (u ++ "::" ++ d) cat
        = 0 := by
      unfold catMinutesAt catEntryAt addUsageSeq
      simp [hfresh]
    rw [this, hfinal]
    exact hm0
  | cons q l1t =>
    subst hl1
    have hcalls1 : ∀ p ∈ q :: l1t, 0 < p.1 ∧ dayKey p.2 = d := fun p hp =>
      hcalls p (by rw [hsplit]; exact List.mem_append_left _ hp)
    obtain ⟨e1, he1, hsum1, h01, h601, hm01⟩ :=
      addUsageSeq_fresh u dom cat d st0 (q :: l1t) hu hd hc hfresh hcalls1
        (by simp)
    have hcalls2 : ∀ p ∈ l2, 0 < p.1 ∧ dayKey p.2 = d := fun p hp =>
      hcalls p (by rw [hsplit]; exact List.mem_append_right _ hp)
    obtain ⟨e2, he2, hsum2, h02, h602, hm2⟩ :=
      addUsageSeq_inv u dom cat d hu hd hc l2
        (addUsageSeq st0 u dom cat (q :: l1t)) e1 _ hcalls2 he1 hsum1 h01 h601
    have hfinal2 : addUsageSeq st0 u dom cat calls
        = addUsageSeq (addUsageSeq st0 u dom cat (q :: l1t)) u dom cat l2 := by
      rw [hsplit, addUsageSeq_append]
    have hpre : catMinutesAt (addUsageSeq st0 u dom cat (q :: l1t))
        (u ++ "::" ++ d) cat = e1.minutes := by
      unfold catMinutesAt
      rw [he1]
      rfl
    have hfin : catMinutesAt (addUsageSeq st0 u dom cat calls)
        (u ++ "::" ++ d) cat = e2.minutes := by
      unfold catMinutesAt
      rw [hfinal2, he2]
      rfl
    rw [hpre, hfin]
    exact hm2

theorem addUsage_chunking_invariance_witness :
    ("u1" : String) ≠ "" ∧
    (lookupA ([] : List (String × Bucket)) ("u1" ++ "::" ++ "1970-01-01")
      = none) ∧
    catEntryAt
        (addUsageSeq [] "u1" "d.com" "porn" [(61, 0), (30, 0), (30, 0)])
        ("u1" ++ "::" ++ "1970-01-01") "porn"
      = some ⟨Int.fdiv (([(61, 0), (30, 0), (30, 0)].map
          (Prod.fst : Int × Int → Int)).sum) 60,
          (([(61, 0), (30, 0), (30, 0)].map
            (Prod.fst : Int × Int → Int)).sum) % 60⟩ := by
  refine ⟨by decide, by decide, ?_⟩
  exact (addUsage_chunking_invariance "u1" "d.com" "porn" "1970-01-01" []
    [(61, 0), (30, 0), (30, 0)] (by decide) (by decide) (by decide)
    (by decide) (by decide) (by decide)).1

/-! ### C10 — unknown categories accumulate but are never billed -/

theorem foldl_preserve {α β : Type} (f : β → α → β) (P : β → Prop)
    (hstep : ∀ b a, P b → P (f b a)) :
    ∀ (l : List α) (b : β), P b → P (l.foldl f b) := by
  intro l
  induction l with
  | nil => intro b h; exact h
  | cons a t ih => intro b h; exact ih _ (hstep b a h)

theorem lookupA_bumpAssoc_keyP (P : String → Prop) (k : String) (v : Int) :
    ∀ acc : List (String × Int), (∀ pr ∈ acc, P pr.1) → P k →
      ∀ pr ∈ bumpAssoc acc k v, P pr.1 := by
  intro acc
  induction acc with
  | nil =>
    intro _ hk pr hpr
    simp [bumpAssoc] at hpr
    subst hpr
    exact hk
  | cons hd t ih =>
    intro hacc hk pr hpr
    obtain ⟨k0, w⟩ := hd
    by_cases h0 : k0 = k
    · simp only [bumpAssoc, h0, if_true] at hpr
      rcases List.mem_cons.mp hpr with h | h
      · rw [h]; exact hk
      · exact hacc pr (List.mem_cons_of_mem _ h)
    · simp only [bumpAssoc, h0, if_false] at hpr
      rcases List.mem_cons.mp hpr with h | h
      · rw [h]; exact hacc (k0, w) (List.mem_cons_self _ _)
      · exact ih (fun q hq => hacc q (List.mem_cons_of_mem _ hq)) hk pr h

theorem innerFold_guard_none (catsOn : List (String × Bool)) (cat : String)
    (f : String × CatEntry → Int) (hoff : lookupA catsOn cat ≠ some true) :
    ∀ (l : List (String × CatEntry)) (acc : List (String × Int)),
      lookupA acc cat = none →
      lookupA (l.foldl (fun acc2 cv =>
        if lookupA catsOn cv.1 = some true then bumpAssoc acc2 cv.1 (f cv)
        else acc2) acc) cat = none := by
  intro l
  induction l with
  | nil => intro acc h; exact h
  | cons cv t ih =>
    intro acc h
    simp only [List.foldl_cons]
    by_cases hck : lookupA catsOn cv.1 = some true
    · rw [if_pos hck]
      have hne : cat ≠ cv.1 := fun hcc => hoff (hcc ▸ hck)
      exact ih _ (by rw [lookupA_bumpAssoc_other _ _ _ _ hne]; exact h)
    · rw [if_neg hck]
      exact ih acc h

theorem innerFold_guard_keysP (catsOn : List (String × Bool))
    (f : String × CatEntry → Int) :
    ∀ (l : List (String × CatEntry)) (acc : List (String × Int)),
      (∀ pr ∈ acc, lookupA catsOn pr.1 = some true) →
      ∀ pr ∈ (l.foldl (fun acc2 cv =>
        if lookupA catsOn cv.1 = some true then bumpAssoc acc2 cv.1 (f cv)
        else acc2) acc), lookupA catsOn pr.1 = some true := by
  intro l
  induction l with
  | nil => intro acc h; exact h
  | cons cv t ih =>
    intro acc h
    simp only [List.foldl_cons]
    by_cases hck : lookupA catsOn cv.1 = some true
    · rw [if_pos hck]
      exact ih _ (lookupA_bumpAssoc_keyP
        (fun k => lookupA catsOn k = some true) cv.1 (f cv) acc h hck)
    · rw [if_neg hck]
      exact ih acc h

theorem lookupA_map_pair_none {β γ : Type} (g : String × β → γ) (k : String) :
    ∀ l : List (String × β), lookupA l k = none →
      lookupA (l.map (fun cm => (cm.1, g cm))) k = none := by
  intro l
  induction l with
  | nil => intro _; rfl
  | cons hd t ih =>
    intro h
    obtain ⟨k0, w⟩ := hd
    by_cases h0 : k0 = k
    · simp [lookupA, h0] at h
    · simp only [lookupA, h0, if_false] at h
      simpa [List.map_cons, lookupA, h0] using ih h

/-- **C10.**  The tick path stores a client-supplied category verbatim
(bypassing the categorizer), so buckets can hold `byCategory` entries
outside the closed porn/gambling enumeration — but the weekly aggregator
produces a `perCategory` entry only for categories whose resolved
`categoriesOn` entry is `true`; under the documented defaults (no stored
snapshot) that excludes every unknown category, whose minutes therefore
contribute 0 cents to the weekly total. -/
theorem unknown_category_not_billed :
    (categorizeDomain "shop.example" = none ∧
      catEntryAt (addUsage [] "u1" "shop.example" "shopping" 120 0)
        "u1::1970-01-01" "shopping" = some ⟨2, 0⟩ ∧
      ("shopping" : String) ∉ (["porn", "gambling"] : List String)) ∧
    (∀ (consents : List (String × ConsentRaw))
      (counters : List (String × Bucket)) (u : String) (ws we tz : Int)
      (cat : String),
      lookupA (getConsentSnapshot consents u).categoriesOn cat ≠ some true →
      lookupA (collectWeeklyBillableMinutes consents counters u ws we tz).1 cat
        = none) ∧
    (∀ (consents : List (String × ConsentRaw)) (u cat : String),
      lookupA consents u = none → cat ≠ "porn" → cat ≠ "gambling" →
      lookupA (getConsentSnapshot consents u).categoriesOn cat = none) ∧
    (∀ (consents : List (String × ConsentRaw))
      (counters : List (String × Bucket)) (u : String) (ws we tz : Int),
      (∀ pr ∈ (collectWeeklyBillableMinutes consents counters u ws we tz).1,
        lookupA (getConsentSnapshot consents u).categoriesOn pr.1 = some true) ∧
      (collectWeeklyBillableMinutes consents counters u ws we tz).2
        = ((collectWeeklyBillableMinutes consents counters u ws we tz).1.map
            (fun p => p.2.centsTotal)).sum) := by
  refine ⟨⟨by decide, by decide, by decide⟩, ?_, ?_, ?_⟩
  · intro consents counters u ws we tz cat hoff
    unfold collectWeeklyBillableMinutes
    apply lookupA_map_pair_none
    refine foldl_preserve _ (fun acc => lookupA acc cat = none) ?_ counters []
      rfl
    intro acc kv hP
    cases hpu : parseUserIdAndDay kv.1 with
    | none => simp only []; exact hP
    | some ud =>
      simp only []
      by_cases hguard : ud.1 = u ∧ ud.2 ≠ "" ∧
          isDayInRange ud.2 ws we tz = true
      · rw [if_pos hguard]
        exact innerFold_guard_none _ cat _ hoff _ acc hP
      · rw [if_neg hguard]
        exact hP
  · intro consents u cat hnone hp hg
    have hp' : ¬ ("porn" : String) = cat := fun h => hp h.symm
    have hg' : ¬ ("gambling" : String) = cat := fun h => hg h.symm
    simp [getConsentSnapshot, hnone, defaultCategoriesOn, lookupA, hp', hg']
  · intro consents counters u ws we tz
    constructor
    · unfold collectWeeklyBillableMinutes
      intro pr hpr
      simp only [List.mem_map] at hpr
      obtain ⟨cm, hcm, rfl⟩ := hpr
      show lookupA (getConsentSnapshot consents u).categoriesOn cm.1 = some true
      refine foldl_preserve _
        (fun acc => ∀ q ∈ acc,
          lookupA (getConsentSnapshot consents u).categoriesOn q.1 = some true)
        ?_ counters [] (by intro q hq; simp at hq) cm hcm
      intro acc kv hP
      cases hpu : parseUserIdAndDay kv.1 with
      | none => simp only []; exact hP
      | some ud =>
        simp only []
        by_cases hguard : ud.1 = u ∧ ud.2 ≠ "" ∧
            isDayInRange ud.2 ws we tz = true
        · rw [if_pos hguard]
          exact innerFold_guard_keysP _ _ _ acc hP
        · rw [if_neg hguard]
          exact hP
    · rfl

theorem unknown_category_not_billed_witness :
    (lookupA (getConsentSnapshot [] "u1").categoriesOn "shopping"
        ≠ some true) ∧
    (lookupA (collectWeeklyBillableMinutes []
        [("u1::1970-01-01", Bucket.mk 0 [("shopping", ⟨2, 0⟩)] [])] "u1"
        (-86400000) 86400000 0).1 "shopping" = none) ∧
    lookupA (getConsentSnapshot [] "u1").categoriesOn "shopping" = none := by
  refine ⟨by decide, ?_, ?_⟩
  · exact unknown_category_not_billed.2.1 []
      [("u1::1970-01-01", Bucket.mk 0 [("shopping", ⟨2, 0⟩)] [])] "u1"
      (-86400000) 86400000 0 "shopping" (by decide)
  · exact unknown_category_not_billed.2.2.1 [] "u1" "shopping" rfl
      (by decide) (by decide)

/-! ### C5 — grace is applied per calendar day, not pooled weekly -/

theorem digitVal?_isDigit {c : Char} {v : Nat} (h : digitVal? c = some v) :
    '0' ≤ c ∧ c ≤ '9' := by
  unfold digitVal? at h
  split at h
  · rename_i hc; exact hc
  · exact absurd h (by simp)

theorem digit_ne_colon {c : Char} (h : '0' ≤ c ∧ c ≤ '9') : c ≠ ':' := by
  intro hc
  subst hc
  exact absurd h.2 (by decide)

set_option maxHeartbeats 1000000 in
theorem parseDayStr_chars {s : String} {m : Int} (h : parseDayStr s = some m) :
    (∀ c ∈ s.data, c ≠ ':') ∧ s ≠ "" := by
  unfold parseDayStr at h
  split at h
  case h_2 => exact absurd h (by simp)
  case h_1 y1 y2 y3 y4 c1 mo1 mo2 c2 d1 d2 heq =>
    have hcond : c1 = '-' ∧ c2 = '-' := by
      by_contra hcond
      rw [if_neg hcond] at h
      exact absurd h (by simp)
    rw [if_pos hcond] at h
    cases hv1 : digitVal? y1 with
    | none => rw [hv1] at h; simp at h
    | some a1 =>
    rw [hv1] at h
    cases hv2 : digitVal? y2 with
    | none => rw [hv2] at h; simp at h
    | some a2 =>
    rw [hv2] at h
    cases hv3 : digitVal? y3 with
    | none => rw [hv3] at h; simp at h
    | some a3 =>
    rw [hv3] at h
    cases hv4 : digitVal? y4 with
    | none => rw [hv4] at h; simp at h
    | some a4 =>
    rw [hv4] at h
    cases hv5 : digitVal? mo1 with
    | none => rw [hv5] at h; simp at h
    | some a5 =>
    rw [hv5] at h
    cases hv6 : digitVal? mo2 with
    | none => rw [hv6] at h; simp at h
    | some a6 =>
    rw [hv6] at h
    cases hv7 : digitVal? d1 with
    | none => rw [hv7] at h; simp at h
    | some a7 =>
    rw [hv7] at h
    cases hv8 : digitVal? d2 with
    | none => rw [hv8] at h; simp at h
    | some a8 =>
    constructor
    · intro c hc
      rw [heq] at hc
      simp only [List.mem_cons, List.not_mem_nil, or_false] at hc
      rcases hc with rfl | rfl | rfl | rfl | rfl | rfl | rfl | rfl | rfl | rfl
      · exact digit_ne_colon (digitVal?_isDigit hv1)
      · exact digit_ne_colon (digitVal?_isDigit hv2)
      · exact digit_ne_colon (digitVal?_isDigit hv3)
      · exact digit_ne_colon (digitVal?_isDigit hv4)
      · rw [hcond.1]; decide
      · exact digit_ne_colon (digitVal?_isDigit hv5)
      · exact digit_ne_colon (digitVal?_isDigit hv6)
      · rw [hcond.2]; decide
      · exact digit_ne_colon (digitVal?_isDigit hv7)
      · exact digit_ne_colon (digitVal?_isDigit hv8)
    · intro hS
      rw [hS] at heq
      exact absurd heq (by simp)

theorem splitLastColons_no_colon {l : List Char} (h : ∀ c ∈ l, c ≠ ':') :
    splitLastColons l = none := by
  induction l with
  | nil => rfl
  | cons c t ih =>
    have hc : c ≠ ':' := h c (List.mem_cons_self _ _)
    have ht := ih (fun c' hc' => h c' (List.mem_cons_of_mem _ hc'))
    simp only [splitLastColons, ht]
    rw [if_neg hc]

theorem splitLastColons_cons (c : Char) (rest : List Char) :
    splitLastColons (c :: rest)
      = match splitLastColons rest with
        | some (p, s) => some (c :: p, s)
        | none =>
          if c = ':' then
            match rest with
            | ':' :: tail => some ([], tail)
            | _ => none
          else none := rfl

theorem splitLastColons_key (u d : List Char) (hd : ∀ c ∈ d, c ≠ ':') :
    splitLastColons (u ++ ':' :: ':' :: d) = some (u, d) := by
  induction u with
  | nil =>
    have h1 : splitLastColons d = none := splitLastColons_no_colon hd
    have h2 : splitLastColons (':' :: d) = none := by
      rw [splitLastColons_cons, h1]
      simp only [if_true]
      split
      · exact absurd rfl (hd ':' (List.mem_cons_self _ _))
      · rfl
    rw [List.nil_append, splitLastColons_cons, h2]
    rfl
  | cons a u' ih =>
    rw [List.cons_append, splitLastColons_cons, ih]

theorem parseUserIdAndDay_key (u d : String) (hd : ∀ c ∈ d.data, c ≠ ':') :
    parseUserIdAndDay (u ++ "::" ++ d) = some (u, d) := by
  unfold parseUserIdAndDay
  have hdata : (u ++ "::" ++ d).data = u.data ++ ':' :: ':' :: d.data := by
    rw [data_append, data_append]
    simp
  rw [hdata, splitLastColons_key u.data d.data hd]
  simp only [Option.map_some']

theorem isDayInRange_parse {d : String} {ws we tz : Int}
    (h : isDayInRange d ws we tz = true) : ∃ m, parseDayStr d = some m := by
  unfold isDayInRange at h
  cases hp : parseDayStr d with
  | none => rw [hp] at h; exact absurd h (by simp)
  | some m => exact ⟨m, rfl⟩

/-- **C5.**  Grace is applied per calendar day, not pooled weekly: for any
enabled category with non-negative daily grace `g`, a week containing three
distinct in-range days of exactly `g` minutes each yields 0 billable weekly
minutes (and 0 cents); one extra minute on a single day yields exactly 1
billable weekly minute.  Concretely, with the default consent (porn grace
1 min/day, rate $0.05/min), porn days of 40, 30 and 50 minutes in the week
ending Sunday 2025-01-05 yield 39+29+49 = 117 billable minutes,
`totalCents = 585` and `wouldChargeCents = 585`. -/
theorem grace_applied_per_day
    (u cat : String) (g : Int) (d1 d2 d3 : String)
    (rates : Option (List (String × Rat))) (ws we tz : Int)
    (hg : 0 ≤ g)
    (h1 : isDayInRange d1 ws we tz = true)
    (h2 : isDayInRange d2 ws we tz = true)
    (h3 : isDayInRange d3 ws we tz = true)
    (hd12 : d1 ≠ d2) (hd13 : d1 ≠ d3) (hd23 : d2 ≠ d3) :
    (collectWeeklyBillableMinutes
        [(u, ConsentRaw.mk (GraceVal.obj [(cat, g)]) rates
          (some [(cat, true)]))]
        [(u ++ "::" ++ d1, Bucket.mk 0 [(cat, CatEntry.mk g 0)] []),
         (u ++ "::" ++ d2, Bucket.mk 0 [(cat, CatEntry.mk g 0)] []),
         (u ++ "::" ++ d3, Bucket.mk 0 [(cat, CatEntry.mk g 0)] [])]
        u ws we tz)
      = ([(cat, PerCatEntry.mk 0
            (centsPerMinFor (rates.getD defaultRates) cat) 0)], 0) ∧
    (collectWeeklyBillableMinutes
        [(u, ConsentRaw.mk (GraceVal.obj [(cat, g)]) rates
          (some [(cat, true)]))]
        [(u ++ "::" ++ d1, Bucket.mk 0 [(cat, CatEntry.mk (g + 1) 0)] []),
         (u ++ "::" ++ d2, Bucket.mk 0 [(cat, CatEntry.mk g 0)] []),
         (u ++ "::" ++ d3, Bucket.mk 0 [(cat, CatEntry.mk g 0)] [])]
        u ws we tz)
      = ([(cat, PerCatEntry.mk 1
            (centsPerMinFor (rates.getD defaultRates) cat)
            (centsPerMinFor (rates.getD defaultRates) cat))],
          centsPerMinFor (rates.getD defaultRates) cat) ∧
    (previewWeekEndpoint
        ⟨[("u5::2024-12-30", Bucket.mk 0
            [("porn", CatEntry.mk 40 0), ("gambling", CatEntry.mk 0 0)] []),
          ("u5::2025-01-01", Bucket.mk 0
            [("porn", CatEntry.mk 30 0), ("gambling", CatEntry.mk 0 0)] []),
          ("u5::2025-01-03", Bucket.mk 0
            [("porn", CatEntry.mk 50 0), ("gambling", CatEntry.mk 0 0)] [])],
          [], []⟩ "u5" (some "2025-01-05") 0 0).2
      = some ⟨"2024-12-30", "2025-01-05",
          [("porn", PerCatEntry.mk 117 5 585),
           ("gambling", PerCatEntry.mk 0 50 0)], 585, 0, 585, 0⟩ := by
  obtain ⟨m1, hp1⟩ := isDayInRange_parse h1
  obtain ⟨m2, hp2⟩ := isDayInRange_parse h2
  obtain ⟨m3, hp3⟩ := isDayInRange_parse h3
  have hne1 := (parseDayStr_chars hp1).2
  have hne2 := (parseDayStr_chars hp2).2
  have hne3 := (parseDayStr_chars hp3).2
  have hk1 := parseUserIdAndDay_key u d1 (parseDayStr_chars hp1).1
  have hk2 := parseUserIdAndDay_key u d2 (parseDayStr_chars hp2).1
  have hk3 := parseUserIdAndDay_key u d3 (parseDayStr_chars hp3).1
  have hsnap : getConsentSnapshot
      [(u, ConsentRaw.mk (GraceVal.obj [(cat, g)]) rates
        (some [(cat, true)]))] u
      = ⟨[(cat, g)], rates.getD defaultRates, [(cat, true)]⟩ := by
    simp [getConsentSnapshot, lookupA]
  have hmax : max (0 : Int) g = g := max_eq_right hg
  have hplus : g + 1 - g = 1 := by omega
  refine ⟨?_, ?_, ?_⟩
  · simp [collectWeeklyBillableMinutes, hsnap, hk1, hk2, hk3, hne1, hne2,
      hne3, h1, h2, h3, lookupA, bumpAssoc, hmax, sub_self]
  · simp [collectWeeklyBillableMinutes, hsnap, hk1, hk2, hk3, hne1, hne2,
      hne3, h1, h2, h3, lookupA, bumpAssoc, hmax, hplus, sub_self]
  · have hcp : centsPerMinFor defaultRates "porn" = 5 := by
      simp [centsPerMinFor, defaultRates, CATEGORY_FLOORS, lookupA]
      norm_num [round_eq]
    have hcg : centsPerMinFor defaultRates "gambling" = 50 := by
      simp [centsPerMinFor, defaultRates, CATEGORY_FLOORS, lookupA]
      norm_num [round_eq]
    have hsnap5 : getConsentSnapshot [] "u5"
        = ⟨defaultGrace, defaultRates, defaultCategoriesOn⟩ := rfl
    have hgwb : getWeekBounds (some "2025-01-05") 0 0
        = some ⟨1735516800000, 1736121599999, "2024-12-30", "2025-01-05"⟩ := by
      decide
    have hq1 : parseUserIdAndDay "u5::2024-12-30"
        = some ("u5", "2024-12-30") := by decide
    have hq2 : parseUserIdAndDay "u5::2025-01-01"
        = some ("u5", "2025-01-01") := by decide
    have hq3 : parseUserIdAndDay "u5::2025-01-03"
        = some ("u5", "2025-01-03") := by decide
    have hr1 : isDayInRange "2024-12-30" 1735516800000 1736121599999 0
        = true := by decide
    have hr2 : isDayInRange "2025-01-01" 1735516800000 1736121599999 0
        = true := by decide
    have hr3 : isDayInRange "2025-01-03" 1735516800000 1736121599999 0
        = true := by decide
    simp [previewWeekEndpoint, hgwb, collectWeeklyBillableMinutes, hsnap5,
      hq1, hq2, hq3, hr1, hr2, hr3, lookupA, bumpAssoc, defaultGrace,
      defaultCategoriesOn, hcp, hcg, STRIPE_MIN_CENTS]

theorem grace_applied_per_day_witness :
    ((0 : Int) ≤ 1 ∧ isDayInRange "2024-12-30" 1735516800000 1736121599999 0
        = true) ∧
    (collectWeeklyBillableMinutes
        [("u5", ConsentRaw.mk (GraceVal.obj [("porn", 1)]) none
          (some [("porn", true)]))]
        [("u5" ++ "::" ++ "2024-12-30",
            Bucket.mk 0 [("porn", CatEntry.mk 1 0)] []),
         ("u5" ++ "::" ++ "2025-01-01",
            Bucket.mk 0 [("porn", CatEntry.mk 1 0)] []),
         ("u5" ++ "::" ++ "2025-01-03",
            Bucket.mk 0 [("porn", CatEntry.mk 1 0)] [])]
        "u5" 1735516800000 1736121599999 0)
      = ([("porn", PerCatEntry.mk 0
            (centsPerMinFor (Option.getD none defaultRates) "porn") 0)], 0) := by
  refine ⟨⟨by decide, by decide⟩, ?_⟩
  exact (grace_applied_per_day "u5" "porn" 1 "2024-12-30" "2025-01-01"
    "2025-01-03" none 1735516800000 1736121599999 0 (by decide) (by decide)
    (by decide) (by decide) (by decide) (by decide) (by decide)).1

/-! ### C7 — categorizer suffix-boundary safety and first-match order -/

theorem isEmpty_false_iff (l : List Char) : (!l.isEmpty) = true ↔ l ≠ [] := by
  cases l <;> simp

theorem seedHere_iff (seed : List Char) :
    ∀ h : List Char, seedHere seed h = true ↔
      ∃ suf, h = seed ++ '.' :: suf ∧ suf ≠ [] ∧ suf.all suffixChar = true := by
  induction seed with
  | nil =>
    intro h
    cases h with
    | nil => simp [seedHere]
    | cons c cs =>
      simp only [seedHere, Bool.and_eq_true, decide_eq_true_eq,
        isEmpty_false_iff, List.nil_append, List.cons.injEq]
      constructor
      · rintro ⟨rfl, hne, hall⟩
        exact ⟨cs, ⟨rfl, rfl⟩, hne, hall⟩
      · rintro ⟨suf, ⟨rfl, rfl⟩, hne, hall⟩
        exact ⟨rfl, hne, hall⟩
  | cons s ss ih =>
    intro h
    cases h with
    | nil => simp [seedHere]
    | cons c cs =>
      simp only [seedHere, Bool.and_eq_true, decide_eq_true_eq, ih,
        List.cons_append, List.cons.injEq]
      constructor
      · rintro ⟨rfl, suf, rfl, hne, hall⟩
        exact ⟨suf, ⟨rfl, rfl⟩, hne, hall⟩
      · rintro ⟨suf, ⟨rfl, rfl⟩, hne, hall⟩
        exact ⟨rfl, suf, rfl, hne, hall⟩

theorem rxAfterDot_iff (seed : List Char) :
    ∀ h : List Char, rxAfterDot seed h = true ↔
      ∃ pre suf, h = pre ++ '.' :: (seed ++ '.' :: suf) ∧ suf ≠ [] ∧
        suf.all suffixChar = true := by
  intro h
  induction h with
  | nil => simp [rxAfterDot]
  | cons c cs ih =>
    simp only [rxAfterDot, Bool.or_eq_true, Bool.and_eq_true,
      decide_eq_true_eq, ih, seedHere_iff]
    constructor
    · rintro (⟨rfl, suf, rfl, hne, hall⟩ | ⟨pre, suf, rfl, hne, hall⟩)
      · exact ⟨[], suf, rfl, hne, hall⟩
      · exact ⟨c :: pre, suf, rfl, hne, hall⟩
    · rintro ⟨pre, suf, heq, hne, hall⟩
      cases pre with
      | nil =>
        injection heq with h1 h2
        exact Or.inl ⟨h1, suf, h2, hne, hall⟩
      | cons p ps =>
        rw [List.cons_append] at heq
        injection heq with h1 h2
        exact Or.inr ⟨ps, suf, h2, hne, hall⟩

theorem seedBoundary_iff (seed : String) (h : List Char) :
    (seedHere seed.data h || rxAfterDot seed.data h) = true ↔
      SeedBoundaryMatch seed h := by
  simp only [Bool.or_eq_true, seedHere_iff, rxAfterDot_iff, SeedBoundaryMatch]
  constructor
  · rintro (⟨suf, rfl, hne, hall⟩ | ⟨pre, suf, rfl, hne, hall⟩)
    · exact ⟨suf, hne, hall, Or.inl rfl⟩
    · exact ⟨suf, hne, hall, Or.inr ⟨pre, rfl⟩⟩
  · rintro ⟨suf, hne, hall, (rfl | ⟨pre, rfl⟩)⟩
    · exact Or.inl ⟨suf, rfl, hne, hall⟩
    · exact Or.inr ⟨pre, suf, rfl, hne, hall⟩

theorem regexTest_iff (seeds : List String) (h : List Char) :
    regexTest seeds h = true ↔ CategoryMatch seeds h := by
  simp only [regexTest, List.any_eq_true, CategoryMatch]
  constructor
  · rintro ⟨seed, hmem, hb⟩
    exact ⟨seed, hmem, (seedBoundary_iff seed h).mp hb⟩
  · rintro ⟨seed, hmem, hb⟩
    exact ⟨seed, hmem, (seedBoundary_iff seed h).mpr hb⟩

/-- **C7.**  `categorizeDomain` classifies the normalized hostname as a
category exactly when some seed of that category occurs as a whole label
followed by a dot and a non-empty suffix of `[a-z0-9.-]` characters
(the hostname equals `seed.suffix` or ends with `.seed.suffix`), with the
categories tried in declaration order (porn before gambling) and the first
match winning; a hostname matching no rule — including the empty/malformed
hostname — yields `none`, never an error.  Concretely `notpornhub.com` is
none, `www.pornhub.com` and `sub.pornhub.com` are porn. -/
theorem categorize_suffix_boundary :
    (∀ host : String,
      (categorizeDomain host = some "porn" ↔
        host ≠ "" ∧ CategoryMatch PORN_SEEDS (normalizeHost host)) ∧
      (categorizeDomain host = some "gambling" ↔
        host ≠ "" ∧ ¬ CategoryMatch PORN_SEEDS (normalizeHost host) ∧
          CategoryMatch GAMBLING_SEEDS (normalizeHost host)) ∧
      (categorizeDomain host = none ↔
        (host = "" ∨ (¬ CategoryMatch PORN_SEEDS (normalizeHost host) ∧
          ¬ CategoryMatch GAMBLING_SEEDS (normalizeHost host))))) ∧
    categorizeDomain "notpornhub.com" = none ∧
    categorizeDomain "www.pornhub.com" = some "porn" ∧
    categorizeDomain "sub.pornhub.com" = some "porn" := by
  refine ⟨?_, by decide, by decide, by decide⟩
  intro host
  by_cases hh : host = ""
  · subst hh
    refine ⟨?_, ?_, ?_⟩ <;> simp [categorizeDomain]
  · have hcd : categorizeDomain host
        = (CATEGORY_RULES.find?
            (fun r => regexTest r.2 (normalizeHost host))).map
              (fun r => r.1) := by
      simp only [categorizeDomain, if_neg hh]
    by_cases hp : regexTest PORN_SEEDS (normalizeHost host) = true
    · have hres : categorizeDomain host = some "porn" := by
        rw [hcd]
        rw [show CATEGORY_RULES
          = [("porn", PORN_SEEDS), ("gambling", GAMBLING_SEEDS)] from rfl]
        rw [@List.find?_cons_of_pos (String × List String)
          (fun r => regexTest r.2 (normalizeHost host)) ("porn", PORN_SEEDS)
          [("gambling", GAMBLING_SEEDS)] hp]
        rfl
      refine ⟨?_, ?_, ?_⟩ <;>
        · rw [hres]
          simp only [← regexTest_iff]
          simp [hp, hh]
    · by_cases hg : regexTest GAMBLING_SEEDS (normalizeHost host) = true
      · have hres : categorizeDomain host = some "gambling" := by
          rw [hcd]
          rw [show CATEGORY_RULES
            = [("porn", PORN_SEEDS), ("gambling", GAMBLING_SEEDS)] from rfl]
          rw [@List.find?_cons_of_neg (String × List String)
            (fun r => regexTest r.2 (normalizeHost host)) ("porn", PORN_SEEDS)
            [("gambling", GAMBLING_SEEDS)] hp,
            @List.find?_cons_of_pos (String × List String)
            (fun r => regexTest r.2 (normalizeHost host))
            ("gambling", GAMBLING_SEEDS) [] hg]
          rfl
        refine ⟨?_, ?_, ?_⟩ <;>
          · rw [hres]
            simp only [← regexTest_iff]
            simp [hp, hg, hh]
      · have hres : categorizeDomain host = none := by
          rw [hcd]
          rw [show CATEGORY_RULES
            = [("porn", PORN_SEEDS), ("gambling", GAMBLING_SEEDS)] from rfl]
          rw [@List.find?_cons_of_neg (String × List String)
            (fun r => regexTest r.2 (normalizeHost host)) ("porn", PORN_SEEDS)
            [("gambling", GAMBLING_SEEDS)] hp,
            @List.find?_cons_of_neg (String × List String)
            (fun r => regexTest r.2 (normalizeHost host))
            ("gambling", GAMBLING_SEEDS) [] hg]
          rfl
        refine ⟨?_, ?_, ?_⟩ <;>
          · rw [hres]
            simp only [← regexTest_iff]
            simp [hp, hg, hh]

end ViceBank
